import Mathlib

/-!
# CHIP-8 interpreter core (`src/cpp/chip8/main.cpp`)

A shallow embedding of the `Chip8` class: the machine state is a record of
the member variables, every opcode handler is a function on that record, and
`Cycle` is the fetch / dispatch / timer step.

Conventions of the embedding

* `uint8_t`, `uint16_t` and `uint32_t` values are natural numbers; every
  store into such a variable reduces modulo `2^8`, `2^16` or `2^32` exactly
  where the C++ conversion does.  Arithmetic that C++ performs in `int`
  after integral promotion is performed in `Int` (subtraction) or in `Nat`
  (everything that cannot go negative) before that reduction.
* The fixed-size arrays (`registers[16]`, `memory[4096]`, `stack[16]`,
  `keypad[16]`, `video[64*32]`, and the dispatch tables) are functions from
  the index; an access whose index is outside the declared size has no
  defined result in C++, so a handler performing one returns `none`.
* The random engine is not part of the state: the byte that
  `randByte(randGen)` yields is an argument of `OP_Cxkk` and of `Cycle`.
-/

namespace Chip8Core

/-! ## Constants -/

def START_ADDRESS : Nat := 0x200
def FONTSET_START_ADDRESS : Nat := 0x50
def FONTSET_SIZE : Nat := 80
def VIDEO_WIDTH : Nat := 64
def VIDEO_HEIGHT : Nat := 32

/-! ## State -/

/-- Data members of `class Chip8` (the random engine and the dispatch tables
apart: the tables are the constant functions `table`, `table0`, ... below). -/
@[ext]
structure Chip8 where
  registers : Nat → Nat
  memory : Nat → Nat
  index : Nat
  pc : Nat
  stack : Nat → Nat
  sp : Nat
  delayTimer : Nat
  soundTimer : Nat
  keypad : Nat → Nat
  video : Nat → Nat
  opcode : Nat

/-- Array store `a[i] = v`. -/
def store (a : Nat → Nat) (i v : Nat) : Nat → Nat :=
  fun j => if j = i then v else a j

/-- Every cell of the state holds a value of its C++ type. -/
structure Chip8.WF (s : Chip8) : Prop where
  registers_lt : ∀ i, s.registers i < 256
  memory_lt : ∀ i, s.memory i < 256
  index_lt : s.index < 65536
  pc_lt : s.pc < 65536
  stack_lt : ∀ i, s.stack i < 65536
  sp_lt : s.sp < 256
  delayTimer_lt : s.delayTimer < 256
  soundTimer_lt : s.soundTimer < 256
  keypad_lt : ∀ i, s.keypad i < 256
  video_lt : ∀ i, s.video i < 4294967296
  opcode_lt : s.opcode < 65536

/-! ## Operand fields -/

/-- The field `(opcode & 0x0F00U) >> 8U`. -/
def fieldX (opcode : Nat) : Nat := (opcode &&& 0x0F00) >>> 8

/-- The field `(opcode & 0x00F0U) >> 4U`. -/
def fieldY (opcode : Nat) : Nat := (opcode &&& 0x00F0) >>> 4

/-- The field `opcode & 0x00FFU`. -/
def fieldKK (opcode : Nat) : Nat := opcode &&& 0x00FF

/-- The field `opcode & 0x0FFFU`. -/
def fieldNNN (opcode : Nat) : Nat := opcode &&& 0x0FFF

/-- The flag register index `Vf = 0xF`. -/
def Vf : Nat := 0xF

/-- C++ conversion of an integer to `uint8_t`. -/
def toU8 (z : Int) : Nat := (z % 256).toNat

/-- C++ conversion of an integer to `uint16_t`. -/
def toU16 (z : Int) : Nat := (z % 65536).toNat

/-- C++ contextual conversion to `bool`, as 0 or 1. -/
def truth (v : Nat) : Bool := v != 0

/-- Value of a `bool` converted back to an integer. -/
def ofBool (b : Bool) : Nat := if b then 1 else 0

/-! ## Construction -/

/-- The built-in glyph bitmaps, five bytes per hexadecimal digit. -/
def fontset : List Nat :=
  [0xF0, 0x90, 0x90, 0x90, 0xF0,  -- 0
   0x20, 0x60, 0x20, 0x20, 0x70,  -- 1
   0xF0, 0x10, 0xF0, 0x80, 0xF0,  -- 2
   0xF0, 0x10, 0xF0, 0x10, 0xF0,  -- 3
   0x90, 0x90, 0xF0, 0x10, 0x10,  -- 4
   0xF0, 0x80, 0xF0, 0x10, 0xF0,  -- 5
   0xF0, 0x80, 0xF0, 0x90, 0xF0,  -- 6
   0xF0, 0x10, 0x20, 0x40, 0x40,  -- 7
   0xF0, 0x90, 0xF0, 0x90, 0xF0,  -- 8
   0xF0, 0x90, 0xF0, 0x10, 0xF0,  -- 9
   0xF0, 0x90, 0xF0, 0x90, 0x90,  -- A
   0xE0, 0x90, 0xE0, 0x90, 0xE0,  -- B
   0xF0, 0x80, 0x80, 0x80, 0xF0,  -- C
   0xE0, 0x90, 0x90, 0x90, 0xE0,  -- D
   0xF0, 0x80, 0xF0, 0x80, 0xF0,  -- E
   0xF0, 0x80, 0xF0, 0x80, 0x80]  -- F

/-- State after `Chip8::Chip8()`: every member zero-initialised by its `{}`
initialiser, `pc` at `START_ADDRESS`, and the glyphs copied to
`memory[FONTSET_START_ADDRESS + i]` for `i < FONTSET_SIZE`.  The member
`opcode` has no initialiser; its starting value is the argument. -/
def Chip8.new (opcode : Nat) : Chip8 :=
  { registers := fun _ => 0,
    memory := fun a =>
      if FONTSET_START_ADDRESS ≤ a ∧ a < FONTSET_START_ADDRESS + FONTSET_SIZE then
        fontset.getD (a - FONTSET_START_ADDRESS) 0
      else 0,
    index := 0, pc := START_ADDRESS, stack := fun _ => 0, sp := 0,
    delayTimer := 0, soundTimer := 0, keypad := fun _ => 0, video := fun _ => 0,
    opcode := opcode }

/-! ## Handlers -/

def OP_NULL (s : Chip8) : Chip8 := s

/-- `memset(video, 0, sizeof video)`. -/
def OP_00E0 (s : Chip8) : Chip8 :=
  { s with video := fun j => if j < VIDEO_WIDTH * VIDEO_HEIGHT then 0 else s.video j }

/-- `--sp; pc = stack[sp];` -/
def OP_00EE (s : Chip8) : Option Chip8 :=
  let sp := toU8 ((s.sp : Int) - 1)
  if sp < 16 then some { s with sp := sp, pc := s.stack sp } else none

def OP_1nnn (s : Chip8) : Chip8 :=
  let address := fieldNNN s.opcode
  { s with pc := address }

/-- `stack[sp] = pc; ++sp; pc = address;` -/
def OP_2nnn (s : Chip8) : Option Chip8 :=
  let address := fieldNNN s.opcode
  if s.sp < 16 then
    some { s with stack := store s.stack s.sp s.pc, sp := (s.sp + 1) % 256, pc := address }
  else none

def OP_3xkk (s : Chip8) : Chip8 :=
  let x := fieldX s.opcode
  let kk := fieldKK s.opcode
  if s.registers x = kk then { s with pc := (s.pc + 2) % 65536 } else s

def OP_4xkk (s : Chip8) : Chip8 :=
  let x := fieldX s.opcode
  let kk := fieldKK s.opcode
  if s.registers x ≠ kk then { s with pc := (s.pc + 2) % 65536 } else s

def OP_5xy0 (s : Chip8) : Chip8 :=
  let x := fieldX s.opcode
  let y := fieldY s.opcode
  if s.registers x = s.registers y then { s with pc := (s.pc + 2) % 65536 } else s

def OP_6xkk (s : Chip8) : Chip8 :=
  let x := fieldX s.opcode
  let kk := fieldKK s.opcode
  { s with registers := store s.registers x kk }

def OP_7xkk (s : Chip8) : Chip8 :=
  let x := fieldX s.opcode
  let kk := fieldKK s.opcode
  { s with registers := store s.registers x ((s.registers x + kk) % 256) }

def OP_8xy0 (s : Chip8) : Chip8 :=
  let x := fieldX s.opcode
  let y := fieldY s.opcode
  { s with registers := store s.registers x (s.registers y) }

/-- `registers[Vx] = registers[Vx] or registers[Vy];` where `or` is the
alternative token for `||`. -/
def OP_8xy1 (s : Chip8) : Chip8 :=
  let x := fieldX s.opcode
  let y := fieldY s.opcode
  { s with registers :=
      store s.registers x (ofBool (truth (s.registers x) || truth (s.registers y))) }

/-- `registers[Vx] = registers[Vx] and registers[Vy];` where `and` is the
alternative token for `&&`. -/
def OP_8xy2 (s : Chip8) : Chip8 :=
  let x := fieldX s.opcode
  let y := fieldY s.opcode
  { s with registers :=
      store s.registers x (ofBool (truth (s.registers x) && truth (s.registers y))) }

/-- `registers[Vx] = registers[Vx] xor registers[Vy];` where `xor` is the
alternative token for `^`. -/
def OP_8xy3 (s : Chip8) : Chip8 :=
  let x := fieldX s.opcode
  let y := fieldY s.opcode
  { s with registers := store s.registers x ((s.registers x ^^^ s.registers y) % 256) }

def OP_8xy4 (s : Chip8) : Chip8 :=
  let x := fieldX s.opcode
  let y := fieldY s.opcode
  let sum := (s.registers x + s.registers y) % 65536
  let r1 := if sum > 255 then store s.registers Vf 1 else store s.registers Vf 0
  { s with registers := store r1 x (sum &&& 0x00FF) }

def OP_8xy5 (s : Chip8) : Chip8 :=
  let x := fieldX s.opcode
  let y := fieldY s.opcode
  let r1 := if s.registers x > s.registers y then store s.registers Vf 1
            else store s.registers Vf 0
  { s with registers := store r1 x (toU8 ((r1 x : Int) - (r1 y : Int))) }

def OP_8xy6 (s : Chip8) : Chip8 :=
  let x := fieldX s.opcode
  let r1 := store s.registers Vf (s.registers x &&& 0x1)
  { s with registers := store r1 x (r1 x >>> 1) }

def OP_8xy7 (s : Chip8) : Chip8 :=
  let x := fieldX s.opcode
  let y := fieldY s.opcode
  let r1 := store s.registers Vf (if s.registers y > s.registers x then 1 else 0)
  { s with registers := store r1 x (toU8 ((r1 y : Int) - (r1 x : Int))) }

def OP_8xyE (s : Chip8) : Chip8 :=
  let x := fieldX s.opcode
  let r1 := store s.registers Vf ((s.registers x &&& 0x80) >>> 7)
  { s with registers := store r1 x ((r1 x <<< 1) % 256) }

def OP_9xy0 (s : Chip8) : Chip8 :=
  let x := fieldX s.opcode
  let y := fieldY s.opcode
  if s.registers x ≠ s.registers y then { s with pc := (s.pc + 2) % 65536 } else s

def OP_Annn (s : Chip8) : Chip8 :=
  { s with index := fieldNNN s.opcode }

def OP_Bnnn (s : Chip8) : Chip8 :=
  let address := fieldNNN s.opcode
  { s with pc := (s.registers 0 + address) % 65536 }

/-- `registers[Vx] = randByte(randGen) and kk;` with `r` the byte drawn from
the generator; `and` is the alternative token for `&&`. -/
def OP_Cxkk (r : Nat) (s : Chip8) : Chip8 :=
  let x := fieldX s.opcode
  let kk := fieldKK s.opcode
  { s with registers := store s.registers x (ofBool (truth r && truth kk)) }

/-- A counted loop `for (int i = start; i < start + count; ++i) body(i)`
whose body may perform an out-of-bounds access. -/
def forLoop : (count start : Nat) → (Nat → Chip8 → Option Chip8) → Chip8 → Option Chip8
  | 0, _, _, s => some s
  | k + 1, i, body, s =>
    match body i s with
    | none => none
    | some s1 => forLoop k (i + 1) body s1

/-- Body of the inner loop of `OP_Dxyn`: one sprite pixel.  The pointer
`screenPixel = &video[cell]` is formed for every pixel, before the sprite bit
is tested: that needs `cell` to be at most the size of `video` (the position
one past the last element may be addressed, not accessed).  The pointer is
dereferenced only under a set sprite bit, which needs `cell` inside `video`. -/
def drawPixel (xPos yPos row spriteByte col : Nat) (s : Chip8) : Option Chip8 :=
  let spritePixel := spriteByte &&& (0x80 >>> col)
  let cell := (yPos + row) * VIDEO_WIDTH + (xPos + col)
  if cell ≤ VIDEO_WIDTH * VIDEO_HEIGHT then
    if spritePixel ≠ 0 then
      if cell < VIDEO_WIDTH * VIDEO_HEIGHT then
        let s1 := if s.video cell = 0xFFFFFFFF then
                    { s with registers := store s.registers Vf 1 } else s
        some { s1 with
          video := store s1.video cell ((s1.video cell ^^^ 0xFFFFFFFF) % 4294967296) }
      else none
    else some s
  else none

/-- Body of the outer loop of `OP_Dxyn`: one sprite row. -/
def drawRow (xPos yPos row : Nat) (s : Chip8) : Option Chip8 :=
  if s.index + row < 4096 then
    let spriteByte := s.memory (s.index + row)
    forLoop 8 0 (drawPixel xPos yPos row spriteByte) s
  else none

def OP_Dxyn (s : Chip8) : Option Chip8 :=
  let x := fieldX s.opcode
  let y := fieldY s.opcode
  let height := s.opcode &&& 0x000F
  let xPos := s.registers x % VIDEO_WIDTH
  let yPos := s.registers y % VIDEO_HEIGHT
  forLoop height 0 (drawRow xPos yPos) s

def OP_Ex9E (s : Chip8) : Option Chip8 :=
  let x := fieldX s.opcode
  let key := s.registers x
  if key < 16 then
    some (if truth (s.keypad key) then { s with pc := (s.pc + 2) % 65536 } else s)
  else none

def OP_ExA1 (s : Chip8) : Option Chip8 :=
  let x := fieldX s.opcode
  let key := s.registers x
  if key < 16 then
    some (if !truth (s.keypad key) then { s with pc := (s.pc + 2) % 65536 } else s)
  else none

def OP_Fx07 (s : Chip8) : Chip8 :=
  let x := fieldX s.opcode
  { s with registers := store s.registers x s.delayTimer }

/-- The sixteen-way `if (keypad[0]) ... else if (keypad[15]) ... else pc -= 2`. -/
def OP_Fx0A (s : Chip8) : Chip8 :=
  let x := fieldX s.opcode
  if truth (s.keypad 0) then { s with registers := store s.registers x 0 }
  else if truth (s.keypad 1) then { s with registers := store s.registers x 1 }
  else if truth (s.keypad 2) then { s with registers := store s.registers x 2 }
  else if truth (s.keypad 3) then { s with registers := store s.registers x 3 }
  else if truth (s.keypad 4) then { s with registers := store s.registers x 4 }
  else if truth (s.keypad 5) then { s with registers := store s.registers x 5 }
  else if truth (s.keypad 6) then { s with registers := store s.registers x 6 }
  else if truth (s.keypad 7) then { s with registers := store s.registers x 7 }
  else if truth (s.keypad 8) then { s with registers := store s.registers x 8 }
  else if truth (s.keypad 9) then { s with registers := store s.registers x 9 }
  else if truth (s.keypad 10) then { s with registers := store s.registers x 10 }
  else if truth (s.keypad 11) then { s with registers := store s.registers x 11 }
  else if truth (s.keypad 12) then { s with registers := store s.registers x 12 }
  else if truth (s.keypad 13) then { s with registers := store s.registers x 13 }
  else if truth (s.keypad 14) then { s with registers := store s.registers x 14 }
  else if truth (s.keypad 15) then { s with registers := store s.registers x 15 }
  else { s with pc := toU16 ((s.pc : Int) - 2) }

def OP_Fx15 (s : Chip8) : Chip8 :=
  let x := fieldX s.opcode
  { s with delayTimer := s.registers x }

def OP_Fx18 (s : Chip8) : Chip8 :=
  let x := fieldX s.opcode
  { s with soundTimer := s.registers x }

def OP_Fx1E (s : Chip8) : Chip8 :=
  let x := fieldX s.opcode
  { s with index := (s.index + s.registers x) % 65536 }

def OP_Fx29 (s : Chip8) : Chip8 :=
  let x := fieldX s.opcode
  let digit := s.registers x
  { s with index := (FONTSET_START_ADDRESS + digit * 5) % 65536 }

/-- Three stores, at `index + 2`, `index + 1` and `index`, of the decimal
digits of `registers[Vx]`. -/
def OP_Fx33 (s : Chip8) : Option Chip8 :=
  let x := fieldX s.opcode
  let value := s.registers x
  if s.index + 2 < 4096 then
    let m1 := store s.memory (s.index + 2) (value % 10)
    let value := value / 10
    let m2 := store m1 (s.index + 1) (value % 10)
    let value := value / 10
    let m3 := store m2 s.index (value % 10)
    some { s with memory := m3 }
  else none

/-- `for (int i{0}; i <= Vx; ++i) memory[index + i] = registers[i];` -/
def OP_Fx55 (s : Chip8) : Option Chip8 :=
  let x := fieldX s.opcode
  forLoop (x + 1) 0
    (fun i t =>
      if t.index + i < 4096 then
        some { t with memory := store t.memory (t.index + i) (t.registers i) }
      else none) s

/-- `for (int i{0}; i <= Vx; ++i) registers[i] = memory[index + i];` -/
def OP_Fx65 (s : Chip8) : Option Chip8 :=
  let x := fieldX s.opcode
  forLoop (x + 1) 0
    (fun i t =>
      if t.index + i < 4096 then
        some { t with registers := store t.registers i (t.memory (t.index + i)) }
      else none) s

/-! ## Dispatch tables

`Chip8Func` is the member-function pointer type.  A table is a function from
the slot number to the handler stored there by the constructor; slots past
the declared size of the table hold nothing (`none`). -/

abbrev Chip8Func := Chip8 → Option Chip8

/-- A handler without any array access that could leave its array. -/
def total (f : Chip8 → Chip8) : Chip8Func := fun s => some (f s)

/-- Call through a table slot. -/
def invoke (slot : Option Chip8Func) (s : Chip8) : Option Chip8 :=
  match slot with
  | some f => f s
  | none => none

/-- Contents of `table0[0xE + 1]` after construction. -/
def table0 (i : Nat) : Option Chip8Func :=
  if i = 0x0 then some (total OP_00E0)
  else if i = 0xE then some OP_00EE
  else if i ≤ 0xE then some (total OP_NULL)
  else none

/-- Contents of `table8[0xE + 1]` after construction. -/
def table8 (i : Nat) : Option Chip8Func :=
  if i = 0x0 then some (total OP_8xy0)
  else if i = 0x1 then some (total OP_8xy1)
  else if i = 0x2 then some (total OP_8xy2)
  else if i = 0x3 then some (total OP_8xy3)
  else if i = 0x4 then some (total OP_8xy4)
  else if i = 0x5 then some (total OP_8xy5)
  else if i = 0x6 then some (total OP_8xy6)
  else if i = 0x7 then some (total OP_8xy7)
  else if i = 0xE then some (total OP_8xyE)
  else if i ≤ 0xE then some (total OP_NULL)
  else none

/-- Contents of `tableE[0xE + 1]` after construction. -/
def tableE (i : Nat) : Option Chip8Func :=
  if i = 0x1 then some OP_ExA1
  else if i = 0xE then some OP_Ex9E
  else if i ≤ 0xE then some (total OP_NULL)
  else none

/-- Contents of `tableF[0x65 + 1]` after construction. -/
def tableF (i : Nat) : Option Chip8Func :=
  if i = 0x07 then some (total OP_Fx07)
  else if i = 0x0A then some (total OP_Fx0A)
  else if i = 0x15 then some (total OP_Fx15)
  else if i = 0x18 then some (total OP_Fx18)
  else if i = 0x1E then some (total OP_Fx1E)
  else if i = 0x29 then some (total OP_Fx29)
  else if i = 0x33 then some OP_Fx33
  else if i = 0x55 then some OP_Fx55
  else if i = 0x65 then some OP_Fx65
  else if i ≤ 0x65 then some (total OP_NULL)
  else none

def Table0 (s : Chip8) : Option Chip8 := invoke (table0 (s.opcode &&& 0x000F)) s

def Table8 (s : Chip8) : Option Chip8 := invoke (table8 (s.opcode &&& 0x000F)) s

def TableE (s : Chip8) : Option Chip8 := invoke (tableE (s.opcode &&& 0x000F)) s

def TableF (s : Chip8) : Option Chip8 := invoke (tableF (s.opcode &&& 0x00FF)) s

/-- Contents of `table[0xF + 1]` after construction; `r` is the byte the
random generator yields if `OP_Cxkk` is the handler called. -/
def table (r : Nat) (i : Nat) : Option Chip8Func :=
  if i = 0x0 then some Table0
  else if i = 0x1 then some (total OP_1nnn)
  else if i = 0x2 then some OP_2nnn
  else if i = 0x3 then some (total OP_3xkk)
  else if i = 0x4 then some (total OP_4xkk)
  else if i = 0x5 then some (total OP_5xy0)
  else if i = 0x6 then some (total OP_6xkk)
  else if i = 0x7 then some (total OP_7xkk)
  else if i = 0x8 then some Table8
  else if i = 0x9 then some (total OP_9xy0)
  else if i = 0xA then some (total OP_Annn)
  else if i = 0xB then some (total OP_Bnnn)
  else if i = 0xC then some (total (OP_Cxkk r))
  else if i = 0xD then some OP_Dxyn
  else if i = 0xE then some TableE
  else if i = 0xF then some TableF
  else none

/-! ## The cycle driver -/

/-- The two timer decrements at the end of `Cycle`. -/
def tick (s : Chip8) : Chip8 :=
  let s1 := if s.delayTimer > 0 then { s with delayTimer := s.delayTimer - 1 } else s
  if s1.soundTimer > 0 then { s1 with soundTimer := s1.soundTimer - 1 } else s1

/-- One call of `Chip8::Cycle`: fetch at `pc`, advance `pc` by two, dispatch
on the high nibble, then tick the timers. -/
def Cycle (r : Nat) (s : Chip8) : Option Chip8 :=
  if s.pc + 1 < 4096 then
    let opcode := ((s.memory s.pc <<< 8) ||| s.memory (s.pc + 1)) % 65536
    let s1 := { s with opcode := opcode, pc := (s.pc + 2) % 65536 }
    match invoke (table r ((opcode &&& 0xF000) >>> 12)) s1 with
    | none => none
    | some s2 => some (tick s2)
  else none

/-! ## Concrete states used to exercise the handlers -/

/-- An all-zero machine with `pc` at the entry address. -/
def blank : Chip8 :=
  { registers := fun _ => 0, memory := fun _ => 0, index := 0, pc := START_ADDRESS,
    stack := fun _ => 0, sp := 0, delayTimer := 0, soundTimer := 0,
    keypad := fun _ => 0, video := fun _ => 0, opcode := 0 }

/-- An all-zero machine with `V0 = a`, `V1 = b` and a given current opcode. -/
def regState (a b opcode : Nat) : Chip8 :=
  { blank with registers := store (store blank.registers 0 a) 1 b, opcode := opcode }

/-- An all-zero machine with the given bytes at the entry address and the
two following addresses. -/
def progState (b0 b1 : Nat) : Chip8 :=
  { blank with memory := store (store blank.memory 0x200 b0) 0x201 b1 }

/-- A call `2300` at `0x200` and a return `00EE` at `0x300`. -/
def callState : Chip8 :=
  { blank with
    memory := store (store (store (store blank.memory 0x200 0x23) 0x201 0x00) 0x300 0x00)
      0x301 0xEE }

/-- The instruction `F30A` at `0x200`, with keys 5 and 9 held down. -/
def keyState : Chip8 :=
  { progState 0xF3 0x0A with keypad := store (store blank.keypad 5 1) 9 1 }

/-- Current instruction `F033`, `V0 = 123`, index register `0x300`. -/
def bcdState : Chip8 :=
  { regState 123 0 0xF033 with index := 0x300 }

/-- Current instruction `8F04` with `VF = 0x10` and `V0 = 0x20`: the
destination of the addition is the flag register. -/
def flagDestState : Chip8 :=
  { blank with registers := store (store blank.registers 0xF 0x10) 0 0x20, opcode := 0x8F04 }

/-- Current instruction `F029` with `V0 = 16`. -/
def glyphState : Chip8 := regState 16 0 0xF029

/-- A machine fresh from the constructor with the two bytes of a ROM copied
to `START_ADDRESS`, as `LoadROM` does. -/
def freshState (b0 b1 : Nat) : Chip8 :=
  { Chip8.new 0 with memory := store (store (Chip8.new 0).memory 0x200 b0) 0x201 b1 }

/-- Current instruction `D011` (one row at `(V0, V1)`), registers `V0 = a`,
`V1 = b`, index register `0x300` and the sprite byte `sprite` stored there. -/
def drawState (a b sprite : Nat) : Chip8 :=
  { regState a b 0xD011 with index := 0x300, memory := store blank.memory 0x300 sprite }

/-- Current instruction `F255`, registers `V0, V1, V2, V3 = 7, 8, 9, 10`,
index register `0x300`. -/
def blockState : Chip8 :=
  { blank with
    registers := store (store (store (store blank.registers 0 7) 1 8) 2 9) 3 10,
    index := 0x300, opcode := 0xF255 }

/-- The two timer counters of a state. -/
def timers (s : Chip8) : Nat × Nat := (s.delayTimer, s.soundTimer)

/-! ## Vocabulary for the draw instruction -/

/-- Sprite bit `col` (0 is the leftmost) of the row byte `b` is set: the test
`spriteByte & (0x80u >> col)` of `OP_Dxyn`. -/
def spriteBit (b col : Nat) : Prop := b &&& (0x80 >>> col) ≠ 0

instance (b col : Nat) : Decidable (spriteBit b col) :=
  inferInstanceAs (Decidable (b &&& (0x80 >>> col) ≠ 0))

/-- Index into `video` that `OP_Dxyn` computes for the sprite pixel
`(row, col)`: `(yPos + row) * VIDEO_WIDTH + (xPos + col)`. -/
def cellOf (xPos yPos row col : Nat) : Nat := (yPos + row) * VIDEO_WIDTH + (xPos + col)

/-- Cell `c` is the target of a set sprite bit among the first `m` pixels
that the two loops of `OP_Dxyn` visit (eight per row, row by row), for a
sprite stored at `mem[I ..]`. -/
def plotted (mem : Nat → Nat) (I xPos yPos m c : Nat) : Prop :=
  ∃ row col, col < 8 ∧ 8 * row + col < m ∧ spriteBit (mem (I + row)) col ∧
    c = cellOf xPos yPos row col

/-- State `t` is what the loops of `OP_Dxyn` have made of `s` after visiting
`m` pixels: plotted cells are inverted, all other cells are as in `s`, the
flag register is 1 if a plotted cell was fully on in `s` and is otherwise as
in `s`, and nothing but the framebuffer and the flag register differs. -/
structure Drawn (s : Chip8) (xPos yPos m : Nat) (t : Chip8) : Prop where
  frame : { t with registers := s.registers, video := s.video } = s
  regs : ∀ i, i ≠ 0xF → t.registers i = s.registers i
  flipped : ∀ c, plotted s.memory s.index xPos yPos m c →
    t.video c = (s.video c ^^^ 0xFFFFFFFF) % 4294967296
  kept : ∀ c, ¬plotted s.memory s.index xPos yPos m c → t.video c = s.video c
  hit : (∃ c, plotted s.memory s.index xPos yPos m c ∧ s.video c = 0xFFFFFFFF) →
    t.registers 0xF = 1
  miss : (¬∃ c, plotted s.memory s.index xPos yPos m c ∧ s.video c = 0xFFFFFFFF) →
    t.registers 0xF = s.registers 0xF

/-- An all-zero machine with the two bytes of a first instruction at `0x200`
and the two bytes of a second one at `0x202`. -/
def prog2State (b0 b1 b2 b3 : Nat) : Chip8 :=
  { blank with
    memory := store (store (store (store blank.memory 0x200 b0) 0x201 b1) 0x202 b2) 0x203 b3 }

/-! ## Vocabulary for array bounds -/

/-- The instruction word that `Cycle` fetches: `memory[pc]` is the high byte. -/
def fetchWord (s : Chip8) : Nat := s.memory s.pc * 256 + s.memory (s.pc + 1)

/-- The secondary field of the instruction word `op` selects a slot that its
dispatch table has: `table0`, `table8` and `tableE` are declared with the
slots `0 .. 0xE`, `tableF` with the slots `0 .. 0x65`. -/
def SlotInTable (op : Nat) : Prop :=
  (op / 4096 = 0x0 ∨ op / 4096 = 0x8 ∨ op / 4096 = 0xE → op % 16 ≤ 0xE) ∧
  (op / 4096 = 0xF → op % 256 ≤ 0x65)

/-- What `OP_Dxyn` needs of the sprite pixel `(row, col)` of a row byte `b`:
the pointer `&video[cell]` it forms for every pixel stays within the array or
one past its end, and the cell it accesses for a set sprite bit lies inside
the array. -/
def PixelInBounds (b xPos yPos row col : Nat) : Prop :=
  cellOf xPos yPos row col ≤ VIDEO_WIDTH * VIDEO_HEIGHT ∧
  (spriteBit b col → cellOf xPos yPos row col < VIDEO_WIDTH * VIDEO_HEIGHT)

/-- What the handler selected by the instruction word `op` needs of the state
`s` to keep its accesses to `stack`, `keypad`, `memory` and `video` inside
those arrays; the source checks none of it.  By family: `00EE` reads
`stack[sp - 1]`; `2nnn` writes `stack[sp]`; `Dxyn` reads `memory[index + row]`
for each row and addresses `video` at the cell of each pixel; `Ex9E` / `ExA1`
read `keypad[V[x]]`; `Fx33` writes `memory[index .. index + 2]`; `Fx55` /
`Fx65` access `memory[index .. index + x]`. -/
def HandlerInBounds (op : Nat) (s : Chip8) : Prop :=
  (op / 4096 = 0x0 → op % 16 = 0xE → 1 ≤ s.sp ∧ s.sp ≤ 16) ∧
  (op / 4096 = 0x2 → s.sp < 16) ∧
  (op / 4096 = 0xD →
    ∀ row, row < op % 16 →
      s.index + row < 4096 ∧
      ∀ col, col < 8 →
        PixelInBounds (s.memory (s.index + row))
          (s.registers (op / 256 % 16) % VIDEO_WIDTH)
          (s.registers (op / 16 % 16) % VIDEO_HEIGHT) row col) ∧
  (op / 4096 = 0xE →
    op % 16 = 0x1 ∨ op % 16 = 0xE → s.registers (op / 256 % 16) < 16) ∧
  (op / 4096 = 0xF →
    (op % 256 = 0x33 → s.index + 2 < 4096) ∧
    (op % 256 = 0x55 ∨ op % 256 = 0x65 → s.index + op / 256 % 16 < 4096))

/-- One `Cycle` from `s` keeps its accesses to `memory`, `stack`, `keypad`
and `video` inside those arrays: the two bytes of the instruction lie inside
`memory`, and the handler of the fetched word finds what it needs. -/
def InBounds (s : Chip8) : Prop :=
  s.pc + 1 < 4096 ∧ HandlerInBounds (fetchWord s) s

/-! ## Decoding lemmas -/

theorem and_shift_mask (op k : Nat) : (op &&& (15 <<< k)) >>> k = op / 2 ^ k % 16 := by
  apply Nat.eq_of_testBit_eq
  intro i
  have h16 : (16 : Nat) = 2 ^ 4 := by norm_num
  rw [h16, Nat.testBit_mod_two_pow, Nat.testBit_shiftRight, Nat.testBit_and,
    Nat.testBit_shiftLeft, ← Nat.shiftRight_eq_div_pow, Nat.testBit_shiftRight]
  have h15 : (15 : Nat) = 2 ^ 4 - 1 := by norm_num
  simp only [Nat.add_sub_cancel_left, Nat.le_add_right, decide_True, Bool.true_and]
  rw [h15, Nat.testBit_two_pow_sub_one, Bool.and_comm]

theorem fieldX_eq (op : Nat) : fieldX op = op / 256 % 16 := and_shift_mask op 8

theorem fieldY_eq (op : Nat) : fieldY op = op / 16 % 16 := and_shift_mask op 4

theorem fieldKK_eq (op : Nat) : fieldKK op = op % 256 :=
  Nat.and_pow_two_sub_one_eq_mod op 8

theorem fieldNNN_eq (op : Nat) : fieldNNN op = op % 4096 :=
  Nat.and_pow_two_sub_one_eq_mod op 12

theorem highNibble_eq (op : Nat) : (op &&& 0xF000) >>> 12 = op / 4096 % 16 :=
  and_shift_mask op 12

theorem lowNibble_eq (op : Nat) : op &&& 0x000F = op % 16 :=
  Nat.and_pow_two_sub_one_eq_mod op 4

theorem lowByte_eq (op : Nat) : op &&& 0x00FF = op % 256 :=
  Nat.and_pow_two_sub_one_eq_mod op 8

/-- The big-endian fetch `(memory[pc] << 8) | memory[pc + 1]`. -/
theorem fetch_eq (hi lo : Nat) (hlo : lo < 256) : (hi <<< 8 ||| lo) = hi * 256 + lo := by
  rw [Nat.shiftLeft_eq]
  have h := Nat.mul_add_lt_is_or (i := 8) (b := lo) (by simpa using hlo) hi
  rw [Nat.mul_comm] at h
  simpa using h.symm

/-- Every pair of register operands is the decoding of some instruction word
of each `8xy?` shape. -/
theorem fields_encode (x y n : Nat) (hx : x < 16) (hy : y < 16) (hn : n < 16) :
    fieldX (0x8000 + x * 256 + y * 16 + n) = x ∧
    fieldY (0x8000 + x * 256 + y * 16 + n) = y := by
  rw [fieldX_eq, fieldY_eq]
  omega

theorem store_same (a : Nat → Nat) (i v : Nat) : store a i v i = v := by
  simp [store]

theorem store_other (a : Nat → Nat) (i v j : Nat) (h : j ≠ i) : store a i v j = a j := by
  simp [store, h]

/-! ## Register ALU operations -/

/-- C1: add-with-flag (`OP_8xy4`).  For operand registers `x ≠ 0xF` and `y`
holding bytes `a` and `b`, the handler leaves `(a + b) mod 256` in `V[x]`,
sets `V[0xF]` to 1 when `a + b > 255` and to 0 otherwise, and changes no
other register. -/
theorem OP_8xy4_add_with_flag (s : Chip8) (x y a b : Nat)
    (hx : fieldX s.opcode = x) (hy : fieldY s.opcode = y) (hxF : x ≠ 0xF)
    (ha : s.registers x = a) (hb : s.registers y = b)
    (ha8 : a < 256) (hb8 : b < 256) :
    (OP_8xy4 s).registers x = (a + b) % 256 ∧
    (OP_8xy4 s).registers 0xF = (if a + b > 255 then 1 else 0) ∧
    ∀ i, i ≠ x → i ≠ 0xF → (OP_8xy4 s).registers i = s.registers i := by
  have hmask : ∀ n : Nat, n &&& 0x00FF = n % 256 := lowByte_eq
  have hsum : (a + b) % 65536 = a + b := Nat.mod_eq_of_lt (by omega)
  refine ⟨?_, ?_, ?_⟩
  · simp only [OP_8xy4, hx, hy, ha, hb, store_same, hmask, hsum]
  · simp only [OP_8xy4, hx, hy, ha, hb, hsum]
    rw [store_other _ _ _ _ (Ne.symm hxF)]
    split <;> simp [store, Vf]
  · intro i hix hiF
    simp only [OP_8xy4, hx]
    rw [store_other _ _ _ _ hix]
    split <;> simp [store, Vf, hiF]

/-- Scenario of C1: `V0 = 0xFF`, `V1 = 0x01`, instruction `8014` gives
`V0 = 0x00` and `VF = 0x01`. -/
theorem OP_8xy4_add_with_flag_witness :
    (OP_8xy4 (regState 0xFF 0x01 0x8014)).registers 0 = 0x00 ∧
    (OP_8xy4 (regState 0xFF 0x01 0x8014)).registers 0xF = 0x01 :=
  ⟨(OP_8xy4_add_with_flag (regState 0xFF 0x01 0x8014) 0 1 0xFF 0x01
      (by decide) (by decide) (by decide) (by decide) (by decide) (by decide) (by decide)).1,
   (OP_8xy4_add_with_flag (regState 0xFF 0x01 0x8014) 0 1 0xFF 0x01
      (by decide) (by decide) (by decide) (by decide) (by decide) (by decide) (by decide)).2.1⟩

/-- What `OP_8xy5` computes: the difference modulo 256, and a flag that is 1
exactly when the destination value is strictly greater. -/
theorem OP_8xy5_behaviour (s : Chip8) (x y a b : Nat)
    (hx : fieldX s.opcode = x) (hy : fieldY s.opcode = y) (hxF : x ≠ 0xF) (hyF : y ≠ 0xF)
    (ha : s.registers x = a) (hb : s.registers y = b) :
    (OP_8xy5 s).registers x = toU8 ((a : Int) - (b : Int)) ∧
    (OP_8xy5 s).registers 0xF = (if a > b then 1 else 0) := by
  refine ⟨?_, ?_⟩
  · simp only [OP_8xy5, hx, hy, ha, hb, store_same]
    split <;> simp [store, Vf, hxF, hyF, ha, hb]
  · simp only [OP_8xy5, hx, hy, ha, hb]
    rw [store_other _ _ _ _ (Ne.symm hxF)]
    split <;> simp [store, Vf]

/-- C2: subtract-with-borrow (`OP_8xy5`) on equal operands.  With
`V0 = V1 = 5` and instruction `8015` the difference `V0 = 0` is right, but
the handler leaves `VF = 0` although `a ≥ b` holds: the comparison in the
source is the strict `>`. -/
theorem OP_8xy5_equal_operands :
    (regState 5 5 0x8015).registers 0 ≥ (regState 5 5 0x8015).registers 1 ∧
    (OP_8xy5 (regState 5 5 0x8015)).registers 0 = 0 ∧
    (OP_8xy5 (regState 5 5 0x8015)).registers 0xF = 0 := by
  decide

/-- What `OP_8xy7` computes: the reversed difference modulo 256, and a flag
that is 1 exactly when `V[y]` is strictly greater than `V[x]`. -/
theorem OP_8xy7_behaviour (s : Chip8) (x y a b : Nat)
    (hx : fieldX s.opcode = x) (hy : fieldY s.opcode = y) (hxF : x ≠ 0xF) (hyF : y ≠ 0xF)
    (ha : s.registers x = a) (hb : s.registers y = b) :
    (OP_8xy7 s).registers x = toU8 ((b : Int) - (a : Int)) ∧
    (OP_8xy7 s).registers 0xF = (if b > a then 1 else 0) := by
  refine ⟨?_, ?_⟩
  · simp [OP_8xy7, hx, hy, store, Vf, hxF, hyF, ha, hb]
  · simp only [OP_8xy7, hx, hy, ha, hb]
    rw [store_other _ _ _ _ (Ne.symm hxF)]
    simp [store, Vf]

/-- C3: reverse subtract (`OP_8xy7`) on equal operands.  With `V0 = V1 = 5`
and instruction `8017` the difference `V0 = 0` is right, but the handler
leaves `VF = 0` although the minuend is not smaller than the subtrahend: the
comparison in the source is the strict `>`. -/
theorem OP_8xy7_equal_operands :
    (regState 5 5 0x8017).registers 1 ≥ (regState 5 5 0x8017).registers 0 ∧
    (OP_8xy7 (regState 5 5 0x8017)).registers 0 = 0 ∧
    (OP_8xy7 (regState 5 5 0x8017)).registers 0xF = 0 := by
  decide

/-- What `OP_8xy1` computes: 1 when either operand is nonzero, else 0. -/
theorem OP_8xy1_behaviour (s : Chip8) :
    (OP_8xy1 s).registers (fieldX s.opcode) =
      (if s.registers (fieldX s.opcode) ≠ 0 ∨ s.registers (fieldY s.opcode) ≠ 0
        then 1 else 0) := by
  simp only [OP_8xy1, store_same, ofBool, truth]
  by_cases h1 : s.registers (fieldX s.opcode) = 0 <;>
    by_cases h2 : s.registers (fieldY s.opcode) = 0 <;> simp [h1, h2]

/-- C4: `OP_8xy1` on `V0 = 0xF0`, `V1 = 0x0F` with instruction `8011` leaves
`V0 = 1`, whereas the bitwise OR of the operands is `0xFF`. -/
theorem OP_8xy1_not_bitwise :
    (OP_8xy1 (regState 0xF0 0x0F 0x8011)).registers 0 = 1 ∧
    (0xF0 ||| 0x0F : Nat) = 0xFF := by
  decide

/-- What `OP_8xy2` computes: 1 when both operands are nonzero, else 0. -/
theorem OP_8xy2_behaviour (s : Chip8) :
    (OP_8xy2 s).registers (fieldX s.opcode) =
      (if s.registers (fieldX s.opcode) ≠ 0 ∧ s.registers (fieldY s.opcode) ≠ 0
        then 1 else 0) := by
  simp only [OP_8xy2, store_same, ofBool, truth]
  by_cases h1 : s.registers (fieldX s.opcode) = 0 <;>
    by_cases h2 : s.registers (fieldY s.opcode) = 0 <;> simp [h1, h2]

/-- C5: `OP_8xy2` on `V0 = 0xFC`, `V1 = 0x3F` with instruction `8012` leaves
`V0 = 1`, whereas the bitwise AND of the operands is `0x3C`. -/
theorem OP_8xy2_not_bitwise :
    (OP_8xy2 (regState 0xFC 0x3F 0x8012)).registers 0 = 1 ∧
    (0xFC &&& 0x3F : Nat) = 0x3C := by
  decide

/-- What `OP_Cxkk` computes: 1 when both the random byte and the immediate
are nonzero, else 0. -/
theorem OP_Cxkk_behaviour (r : Nat) (s : Chip8) :
    (OP_Cxkk r s).registers (fieldX s.opcode) =
      (if r ≠ 0 ∧ fieldKK s.opcode ≠ 0 then 1 else 0) := by
  simp only [OP_Cxkk, store_same, ofBool, truth]
  by_cases h1 : r = 0 <;> by_cases h2 : fieldKK s.opcode = 0 <;> simp [h1, h2]

/-- C6: `OP_Cxkk` with random byte `0xFF` and instruction `C03C` (mask
`kk = 0x3C`) leaves `V0 = 1`, whereas the bitwise AND of the random byte and
the mask is `0x3C`. -/
theorem OP_Cxkk_not_bitwise :
    fieldKK 0xC03C = 0x3C ∧
    (OP_Cxkk 0xFF (regState 0 0 0xC03C)).registers 0 = 1 ∧
    (0xFF &&& 0x3C : Nat) = 0x3C := by
  decide

/-! ## The cycle driver: fetch and dispatch -/

theorem tick_pc (s : Chip8) : (tick s).pc = s.pc := by
  unfold tick; dsimp only; split_ifs <;> rfl

theorem tick_sp (s : Chip8) : (tick s).sp = s.sp := by
  unfold tick; dsimp only; split_ifs <;> rfl

theorem tick_registers (s : Chip8) : (tick s).registers = s.registers := by
  unfold tick; dsimp only; split_ifs <;> rfl

theorem tick_memory (s : Chip8) : (tick s).memory = s.memory := by
  unfold tick; dsimp only; split_ifs <;> rfl

theorem tick_stack (s : Chip8) : (tick s).stack = s.stack := by
  unfold tick; dsimp only; split_ifs <;> rfl

/-- One cycle on a state whose two bytes at `pc` are `hi` and `lo`: the
handler in slot `hi / 16` of the primary table runs on the state with the
fetched word and the advanced program counter, and the timers tick. -/
theorem Cycle_fetch (r : Nat) (s : Chip8) (hi lo : Nat)
    (hpc : s.pc + 1 < 4096) (hhi : s.memory s.pc = hi) (hlo : s.memory (s.pc + 1) = lo)
    (hhi8 : hi < 256) (hlo8 : lo < 256) :
    Cycle r s =
      (invoke (table r (hi / 16)) { s with opcode := hi * 256 + lo, pc := s.pc + 2 }).map
        tick := by
  have hop : (s.memory s.pc <<< 8 ||| s.memory (s.pc + 1)) % 65536 = hi * 256 + lo := by
    rw [hhi, hlo, fetch_eq hi lo hlo8]
    exact Nat.mod_eq_of_lt (by omega)
  have hnib : ((hi * 256 + lo) &&& 0xF000) >>> 12 = hi / 16 := by
    rw [highNibble_eq]; omega
  have hpc2 : (s.pc + 2) % 65536 = s.pc + 2 := Nat.mod_eq_of_lt (by omega)
  simp only [Cycle, hpc, if_true, hop, hnib, hpc2]
  cases invoke (table r (hi / 16)) { s with opcode := hi * 256 + lo, pc := s.pc + 2 } <;> rfl

/-- C7: call/return round trip.  From a state with `sp < 16` whose program
counter `p` addresses a call instruction `2nnn`, one cycle (the call)
followed by one cycle executing the return instruction `00EE` located at
`nnn` ends with `pc = p + 2` and with the stack pointer at its value before
the call. -/
theorem call_return_round_trip (r1 r2 : Nat) (s : Chip8) (p nnn : Nat)
    (hsp : s.sp < 16) (hpc : s.pc = p) (hp : p + 1 < 4096) (hn : nnn + 1 < 4096)
    (hcall_hi : s.memory p = 0x20 + nnn / 256) (hcall_lo : s.memory (p + 1) = nnn % 256)
    (hret_hi : s.memory nnn = 0x00) (hret_lo : s.memory (nnn + 1) = 0xEE) :
    ∃ s1 s2, Cycle r1 s = some s1 ∧ s1.pc = nnn ∧ Cycle r2 s1 = some s2 ∧
      s2.pc = p + 2 ∧ s2.sp = s.sp := by
  subst hpc
  have hnib : (0x20 + nnn / 256) / 16 = 2 := by omega
  have hword : (0x20 + nnn / 256) * 256 + nnn % 256 = 0x2000 + nnn := by omega
  have hfield : fieldNNN (0x2000 + nnn) = nnn := by rw [fieldNNN_eq]; omega
  have hstep1 := Cycle_fetch r1 s _ _ hp hcall_hi hcall_lo (by omega) (by omega)
  rw [hnib, hword] at hstep1
  have htab : table r1 2 = some OP_2nnn := rfl
  simp only [htab, invoke, OP_2nnn, hsp, if_true, Option.map_some', hfield] at hstep1
  have hstep2 := Cycle_fetch r2
    (tick { s with opcode := 0x2000 + nnn, pc := nnn,
                   stack := store s.stack s.sp (s.pc + 2), sp := (s.sp + 1) % 256 })
    0x00 0xEE (by rw [tick_pc]; exact hn) (by rw [tick_pc, tick_memory]; exact hret_hi)
    (by rw [tick_pc, tick_memory]; exact hret_lo) (by omega) (by omega)
  have htab0 : table r2 (0x00 / 16) = some Table0 := rfl
  have hslot : table0 ((0x00 * 256 + 0xEE) &&& 0x000F) = some OP_00EE := rfl
  have hsp' : toU8 ((((s.sp + 1) % 256 : Nat) : Int) - 1) = s.sp := by
    unfold toU8; omega
  simp only [htab0, invoke, Table0, hslot, OP_00EE, tick_sp, hsp', hsp, if_true,
    Option.map_some'] at hstep2
  refine ⟨_, _, hstep1, by rw [tick_pc], hstep2, ?_, ?_⟩
  · rw [tick_pc]
    simp only [tick_stack, store_same]
  · rw [tick_sp]

/-- C7 exercised on `callState`: call `2300` at `0x200`, return at `0x300`. -/
theorem call_return_round_trip_witness :
    ∃ s1 s2, Cycle 0 callState = some s1 ∧ s1.pc = 0x300 ∧ Cycle 0 s1 = some s2 ∧
      s2.pc = 0x200 + 2 ∧ s2.sp = callState.sp :=
  call_return_round_trip 0 0 callState 0x200 0x300
    (by decide) (by decide) (by decide) (by decide) (by decide) (by decide) (by decide)
    (by decide)

/-! ## Block on key press -/

/-- With no key down the sixteen tests of `OP_Fx0A` all fail and the handler
only rewinds the program counter. -/
theorem OP_Fx0A_no_key (s : Chip8) (hk : ∀ k, k < 16 → s.keypad k = 0) :
    OP_Fx0A s = { s with pc := toU16 ((s.pc : Int) - 2) } := by
  simp [OP_Fx0A, truth, hk]

/-- With key `k` down and no key of smaller index down, `OP_Fx0A` stores `k`
in `V[x]` and nothing else. -/
theorem OP_Fx0A_first_key (s : Chip8) (k : Nat) (hk : k < 16) (hkey : s.keypad k ≠ 0)
    (hmin : ∀ j, j < k → s.keypad j = 0) :
    OP_Fx0A s = { s with registers := store s.registers (fieldX s.opcode) k } := by
  have h0 := hmin 0
  have h1 := hmin 1
  have h2 := hmin 2
  have h3 := hmin 3
  have h4 := hmin 4
  have h5 := hmin 5
  have h6 := hmin 6
  have h7 := hmin 7
  have h8 := hmin 8
  have h9 := hmin 9
  have h10 := hmin 10
  have h11 := hmin 11
  have h12 := hmin 12
  have h13 := hmin 13
  have h14 := hmin 14
  clear hmin
  interval_cases k <;>
    simp [OP_Fx0A, truth, hkey, h0, h1, h2, h3, h4, h5, h6, h7, h8, h9, h10, h11, h12,
      h13, h14]

/-- One cycle on an `Fx0A` instruction runs `OP_Fx0A` on the fetched state. -/
theorem Cycle_Fx0A (r : Nat) (s : Chip8) (x : Nat) (hx : x < 16) (hpc : s.pc + 1 < 4096)
    (hhi : s.memory s.pc = 0xF0 + x) (hlo : s.memory (s.pc + 1) = 0x0A) :
    fieldX ((0xF0 + x) * 256 + 0x0A) = x ∧
    Cycle r s =
      some (tick (OP_Fx0A { s with opcode := (0xF0 + x) * 256 + 0x0A, pc := s.pc + 2 })) := by
  have hstep := Cycle_fetch r s _ _ hpc hhi hlo (by omega) (by omega)
  have hnib : (0xF0 + x) / 16 = 0xF := by omega
  have htab : table r 0xF = some TableF := rfl
  have hbyte : ((0xF0 + x) * 256 + 0x0A) &&& 0x00FF = 0x0A := by rw [lowByte_eq]; omega
  have hslot : tableF 0x0A = some (total OP_Fx0A) := rfl
  rw [hnib, htab] at hstep
  simp only [invoke, TableF, hbyte, hslot, total, Option.map_some'] at hstep
  refine ⟨?_, hstep⟩
  rw [fieldX_eq]; omega

/-- C8: block-on-key-press with no key.  When all sixteen keypad flags are
zero and the instruction at `pc` is `Fx0A`, one cycle ends with the program
counter at its value before the cycle and with every general register
unchanged. -/
theorem Fx0A_cycle_no_key (r : Nat) (s : Chip8) (x : Nat) (hx : x < 16)
    (hpc : s.pc + 1 < 4096)
    (hhi : s.memory s.pc = 0xF0 + x) (hlo : s.memory (s.pc + 1) = 0x0A)
    (hk : ∀ k, k < 16 → s.keypad k = 0) :
    ∃ s', Cycle r s = some s' ∧ s'.pc = s.pc ∧ ∀ i, s'.registers i = s.registers i := by
  obtain ⟨_, hstep⟩ := Cycle_Fx0A r s x hx hpc hhi hlo
  rw [OP_Fx0A_no_key { s with opcode := (0xF0 + x) * 256 + 0x0A, pc := s.pc + 2 } hk] at hstep
  refine ⟨_, hstep, ?_, ?_⟩
  · rw [tick_pc]
    show toU16 (((s.pc + 2 : Nat) : Int) - 2) = s.pc
    unfold toU16; omega
  · intro i
    rw [tick_registers]

/-- C8 exercised on the instruction `F30A` at `0x200` with no key down. -/
theorem Fx0A_cycle_no_key_witness :
    ∃ s', Cycle 0 (progState 0xF3 0x0A) = some s' ∧ s'.pc = 0x200 ∧
      ∀ i, s'.registers i = (progState 0xF3 0x0A).registers i :=
  Fx0A_cycle_no_key 0 (progState 0xF3 0x0A) 3 (by decide) (by decide) (by decide)
    (by decide) (fun _ _ => rfl)

/-- C9: block-on-key-press with a key.  When some keypad flag is nonzero and
the instruction at `pc` is `Fx0A`, one cycle ends with `V[x]` equal to the
smallest index in `0..15` whose flag is nonzero, and with the program counter
two past its value before the cycle. -/
theorem Fx0A_cycle_key (r : Nat) (s : Chip8) (x : Nat) (hx : x < 16)
    (hpc : s.pc + 1 < 4096)
    (hhi : s.memory s.pc = 0xF0 + x) (hlo : s.memory (s.pc + 1) = 0x0A)
    (hkey : ∃ j, j < 16 ∧ s.keypad j ≠ 0) :
    ∃ s' k, Cycle r s = some s' ∧
      k < 16 ∧ s.keypad k ≠ 0 ∧ (∀ j, j < k → s.keypad j = 0) ∧
      s'.registers x = k ∧ s'.pc = s.pc + 2 := by
  obtain ⟨hfx, hstep⟩ := Cycle_Fx0A r s x hx hpc hhi hlo
  have hex : ∃ j, s.keypad j ≠ 0 := by
    obtain ⟨j, _, hj⟩ := hkey
    exact ⟨j, hj⟩
  have hk16 : Nat.find hex < 16 := by
    obtain ⟨j, hj16, hj⟩ := hkey
    exact lt_of_le_of_lt (Nat.find_min' hex hj) hj16
  have hkspec : s.keypad (Nat.find hex) ≠ 0 := Nat.find_spec hex
  have hkmin : ∀ j, j < Nat.find hex → s.keypad j = 0 := by
    intro j hj
    exact not_not.mp (Nat.find_min hex hj)
  rw [OP_Fx0A_first_key { s with opcode := (0xF0 + x) * 256 + 0x0A, pc := s.pc + 2 }
    (Nat.find hex) hk16 hkspec hkmin] at hstep
  refine ⟨_, Nat.find hex, hstep, hk16, hkspec, hkmin, ?_, ?_⟩
  · rw [tick_registers]
    show store s.registers (fieldX ((0xF0 + x) * 256 + 0x0A)) (Nat.find hex) x = Nat.find hex
    rw [hfx, store_same]
  · rw [tick_pc]

/-- C9 exercised on `keyState`: instruction `F30A` with keys 5 and 9 down
ends with `V3 = 5` and `pc = 0x202`. -/
theorem Fx0A_cycle_key_witness :
    ∃ s', Cycle 0 keyState = some s' ∧ s'.registers 3 = 5 ∧ s'.pc = 0x202 := by
  obtain ⟨s', k, hstep, hk16, hkey, hmin, hreg, hpc⟩ :=
    Fx0A_cycle_key 0 keyState 3 (by decide) (by decide) (by decide) (by decide)
      ⟨5, by decide, by decide⟩
  have hk5 : k = 5 := by
    have hle : k ≤ 5 := by
      by_contra hgt
      exact absurd (hmin 5 (by omega)) (by decide)
    interval_cases k <;> first | rfl | exact absurd rfl hkey
  subst hk5
  exact ⟨s', hstep, hreg, hpc⟩

/-! ## Decimal decomposition -/

/-- C10: decimal decompose (`OP_Fx33`).  For a register byte `v` and an index
`I` with `I + 2 ≤ 4095` the handler stores `v / 100`, `(v / 10) mod 10` and
`v mod 10` at `I`, `I + 1` and `I + 2`; the three bytes are decimal digits
whose weighted sum is `v`, and every other memory byte is unchanged. -/
theorem OP_Fx33_decimal (s : Chip8) (v I : Nat)
    (hv : s.registers (fieldX s.opcode) = v) (hv8 : v < 256)
    (hI : s.index = I) (hI2 : I + 2 ≤ 4095) :
    ∃ s', OP_Fx33 s = some s' ∧
      s'.memory I = v / 100 ∧ s'.memory (I + 1) = v / 10 % 10 ∧ s'.memory (I + 2) = v % 10 ∧
      s'.memory I < 10 ∧ s'.memory (I + 1) < 10 ∧ s'.memory (I + 2) < 10 ∧
      100 * s'.memory I + 10 * s'.memory (I + 1) + s'.memory (I + 2) = v ∧
      ∀ a, a ≠ I → a ≠ I + 1 → a ≠ I + 2 → s'.memory a = s.memory a := by
  have hin : I + 2 < 4096 := by omega
  have hrun : OP_Fx33 s = some
      { s with
        memory := store (store (store s.memory (I + 2) (v % 10)) (I + 1) (v / 10 % 10)) I
                    ((v / 10) / 10 % 10) } := by
    simp only [OP_Fx33, hin, if_true, hv, hI]
  refine ⟨_, hrun, ?_, ?_, ?_, ?_, ?_, ?_, ?_, ?_⟩ <;> dsimp only
  · rw [store_same]; omega
  · rw [store_other _ _ _ _ (by omega), store_same]
  · rw [store_other _ _ _ _ (by omega), store_other _ _ _ _ (by omega), store_same]
  · rw [store_same]; omega
  · rw [store_other _ _ _ _ (by omega), store_same]; omega
  · rw [store_other _ _ _ _ (by omega), store_other _ _ _ _ (by omega), store_same]; omega
  · rw [store_same, store_other _ _ _ _ (by omega), store_same,
      store_other _ _ _ _ (by omega), store_other _ _ _ _ (by omega), store_same]
    omega
  · intro a ha0 ha1 ha2
    rw [store_other _ _ _ _ ha0, store_other _ _ _ _ ha1, store_other _ _ _ _ ha2]

/-- Scenario of C10: `V0 = 123` and `I = 0x300` write `[1, 2, 3]`. -/
theorem OP_Fx33_decimal_witness :
    ∃ s', OP_Fx33 bcdState = some s' ∧
      s'.memory 0x300 = 1 ∧ s'.memory 0x301 = 2 ∧ s'.memory 0x302 = 3 := by
  obtain ⟨s', hrun, h0, h1, h2, _⟩ :=
    OP_Fx33_decimal bcdState 123 0x300 (by decide) (by decide) (by decide) (by decide)
  exact ⟨s', hrun, h0, h1, h2⟩

/-! ## Clear screen, jump and conditional skips -/

theorem tick_index (s : Chip8) : (tick s).index = s.index := by
  unfold tick; dsimp only; split_ifs <;> rfl

theorem tick_opcode (s : Chip8) : (tick s).opcode = s.opcode := by
  unfold tick; dsimp only; split_ifs <;> rfl

theorem tick_video (s : Chip8) : (tick s).video = s.video := by
  unfold tick; dsimp only; split_ifs <;> rfl

theorem tick_keypad (s : Chip8) : (tick s).keypad = s.keypad := by
  unfold tick; dsimp only; split_ifs <;> rfl

theorem tick_delayTimer (s : Chip8) :
    (tick s).delayTimer = if s.delayTimer ≠ 0 then s.delayTimer - 1 else 0 := by
  unfold tick; dsimp only; split_ifs <;> simp_all

theorem tick_soundTimer (s : Chip8) :
    (tick s).soundTimer = if s.soundTimer ≠ 0 then s.soundTimer - 1 else 0 := by
  unfold tick; dsimp only; split_ifs <;> simp_all

/-- C11: clear screen (`OP_00E0`).  Whatever the framebuffer held, afterwards
each of the `64 * 32` cells is 0, and the handler leaves registers, memory,
index register, program counter, stack, stack pointer and both timers as they
were. -/
theorem OP_00E0_clears (s : Chip8) :
    (∀ c, c < 64 * 32 → (OP_00E0 s).video c = 0) ∧
    (OP_00E0 s).registers = s.registers ∧ (OP_00E0 s).memory = s.memory ∧
    (OP_00E0 s).index = s.index ∧ (OP_00E0 s).pc = s.pc ∧
    (OP_00E0 s).stack = s.stack ∧ (OP_00E0 s).sp = s.sp ∧
    (OP_00E0 s).delayTimer = s.delayTimer ∧ (OP_00E0 s).soundTimer = s.soundTimer := by
  refine ⟨?_, rfl, rfl, rfl, rfl, rfl, rfl, rfl, rfl⟩
  intro c hc
  simp [OP_00E0, VIDEO_WIDTH, VIDEO_HEIGHT, hc]

/-- C19: jump (`OP_1nnn`) through `Cycle`.  For a 12-bit address `nnn` and a
state whose instruction at `pc` is `1nnn`, one cycle ends with `pc = nnn`
exactly, and with the stack array, stack pointer, registers, index register
and memory unchanged. -/
theorem jump_cycle (r : Nat) (s : Chip8) (nnn : Nat) (hn : nnn < 4096)
    (hpc : s.pc + 1 < 4096)
    (hhi : s.memory s.pc = 0x10 + nnn / 256) (hlo : s.memory (s.pc + 1) = nnn % 256) :
    ∃ s', Cycle r s = some s' ∧ s'.pc = nnn ∧ s'.stack = s.stack ∧ s'.sp = s.sp ∧
      s'.registers = s.registers ∧ s'.index = s.index ∧ s'.memory = s.memory := by
  have hstep := Cycle_fetch r s _ _ hpc hhi hlo (by omega) (by omega)
  have hnib : (0x10 + nnn / 256) / 16 = 1 := by omega
  have hword : (0x10 + nnn / 256) * 256 + nnn % 256 = 0x1000 + nnn := by omega
  have hfield : fieldNNN (0x1000 + nnn) = nnn := by rw [fieldNNN_eq]; omega
  have htab : table r 1 = some (total OP_1nnn) := rfl
  rw [hnib, hword, htab] at hstep
  simp only [invoke, total, OP_1nnn, hfield, Option.map_some'] at hstep
  exact ⟨_, hstep, by rw [tick_pc], by rw [tick_stack], by rw [tick_sp],
    by rw [tick_registers], by rw [tick_index], by rw [tick_memory]⟩

/-- Scenario of C19: a fresh machine with the bytes `0x13, 0x00` at `0x200`
ends its first cycle with `pc = 0x300`, stack and stack pointer as
constructed. -/
theorem jump_cycle_witness :
    ∃ s', Cycle 0 (freshState 0x13 0x00) = some s' ∧ s'.pc = 0x300 ∧
      s'.stack = (freshState 0x13 0x00).stack ∧ s'.sp = (freshState 0x13 0x00).sp ∧
      s'.registers = (freshState 0x13 0x00).registers ∧
      s'.index = (freshState 0x13 0x00).index ∧
      s'.memory = (freshState 0x13 0x00).memory :=
  jump_cycle 0 (freshState 0x13 0x00) 0x300 (by decide) (by decide) (by decide) (by decide)

/-- C18: conditional skips through `Cycle`.  With bytes `hi`, `lo` at `pc = p`
forming an instruction of family 3, 4, 5 or 9, the fetched word is
`hi * 256 + lo`; one cycle ends with `pc = p + 4` when the condition of the
instruction holds (`V[x] = kk`, `V[x] ≠ kk`, `V[x] = V[y]`, `V[x] ≠ V[y]`
respectively, with `x = hi mod 16`, `kk = lo`, `y = lo / 16`) and with
`pc = p + 2` otherwise; registers and memory are unchanged. -/
theorem skip_cycle (r : Nat) (s : Chip8) (p hi lo : Nat)
    (hp : s.pc = p) (hpc : p + 1 < 4096)
    (hhi : s.memory p = hi) (hlo : s.memory (p + 1) = lo)
    (hhi8 : hi < 256) (hlo8 : lo < 256)
    (hfam : hi / 16 = 3 ∨ hi / 16 = 4 ∨ hi / 16 = 5 ∨ hi / 16 = 9) :
    ∃ s', Cycle r s = some s' ∧ s'.opcode = s.memory p * 256 + s.memory (p + 1) ∧
      (hi / 16 = 3 → s'.pc = if s.registers (hi % 16) = lo then p + 4 else p + 2) ∧
      (hi / 16 = 4 → s'.pc = if s.registers (hi % 16) ≠ lo then p + 4 else p + 2) ∧
      (hi / 16 = 5 →
        s'.pc = if s.registers (hi % 16) = s.registers (lo / 16) then p + 4 else p + 2) ∧
      (hi / 16 = 9 →
        s'.pc = if s.registers (hi % 16) ≠ s.registers (lo / 16) then p + 4 else p + 2) ∧
      s'.registers = s.registers ∧ s'.memory = s.memory := by
  subst hp
  have hstep := Cycle_fetch r s hi lo hpc hhi hlo hhi8 hlo8
  have hx : fieldX (hi * 256 + lo) = hi % 16 := by rw [fieldX_eq]; omega
  have hy : fieldY (hi * 256 + lo) = lo / 16 := by rw [fieldY_eq]; omega
  have hkk : fieldKK (hi * 256 + lo) = lo := by rw [fieldKK_eq]; omega
  have hpc4 : (s.pc + 2 + 2) % 65536 = s.pc + 4 := by omega
  rcases hfam with h | h | h | h
  · have htab : table r 3 = some (total OP_3xkk) := rfl
    rw [h, htab] at hstep
    simp only [invoke, total, OP_3xkk, hx, hkk, hpc4, Option.map_some'] at hstep
    refine ⟨_, hstep, ?_, ?_, ?_, ?_, ?_, ?_, ?_⟩
    · rw [tick_opcode, hhi, hlo]; split_ifs <;> rfl
    all_goals first
      | (intro h'; omega)
      | (intro _; rw [tick_pc]; split_ifs <;> rfl)
      | (rw [tick_registers]; split_ifs <;> rfl)
      | (rw [tick_memory]; split_ifs <;> rfl)
  · have htab : table r 4 = some (total OP_4xkk) := rfl
    rw [h, htab] at hstep
    simp only [invoke, total, OP_4xkk, hx, hkk, hpc4, Option.map_some'] at hstep
    refine ⟨_, hstep, ?_, ?_, ?_, ?_, ?_, ?_, ?_⟩
    · rw [tick_opcode, hhi, hlo]; split_ifs <;> rfl
    all_goals first
      | (intro h'; omega)
      | (intro _; rw [tick_pc]; split_ifs <;> rfl)
      | (rw [tick_registers]; split_ifs <;> rfl)
      | (rw [tick_memory]; split_ifs <;> rfl)
  · have htab : table r 5 = some (total OP_5xy0) := rfl
    rw [h, htab] at hstep
    simp only [invoke, total, OP_5xy0, hx, hy, hpc4, Option.map_some'] at hstep
    refine ⟨_, hstep, ?_, ?_, ?_, ?_, ?_, ?_, ?_⟩
    · rw [tick_opcode, hhi, hlo]; split_ifs <;> rfl
    all_goals first
      | (intro h'; omega)
      | (intro _; rw [tick_pc]; split_ifs <;> rfl)
      | (rw [tick_registers]; split_ifs <;> rfl)
      | (rw [tick_memory]; split_ifs <;> rfl)
  · have htab : table r 9 = some (total OP_9xy0) := rfl
    rw [h, htab] at hstep
    simp only [invoke, total, OP_9xy0, hx, hy, hpc4, Option.map_some'] at hstep
    refine ⟨_, hstep, ?_, ?_, ?_, ?_, ?_, ?_, ?_⟩
    · rw [tick_opcode, hhi, hlo]; split_ifs <;> rfl
    all_goals first
      | (intro h'; omega)
      | (intro _; rw [tick_pc]; split_ifs <;> rfl)
      | (rw [tick_registers]; split_ifs <;> rfl)
      | (rw [tick_memory]; split_ifs <;> rfl)

/-- C18 exercised on the instruction `3000` at `0x200` with `V0 = 0`: the
condition holds and the cycle ends with `pc = 0x204`. -/
theorem skip_cycle_witness :
    ∃ s', Cycle 0 (progState 0x30 0x00) = some s' ∧ s'.opcode = 0x3000 ∧ s'.pc = 0x204 := by
  obtain ⟨s', hrun, hop, h3, _⟩ :=
    skip_cycle 0 (progState 0x30 0x00) 0x200 0x30 0x00 (by decide) (by decide) (by decide)
      (by decide) (by decide) (by decide) (Or.inl (by decide))
  exact ⟨s', hrun, hop.trans (by decide), (h3 (by decide)).trans (by decide)⟩

/-! ## Glyph address -/

/-- C16, as the claim states it, fails: with `V0 = 16` the instruction `F029`
leaves the index register at `0x50 + 5 * 16 = 0xA0`, not at
`0x50 + 5 * (16 mod 16) = 0x50`. -/
theorem OP_Fx29_no_mask :
    glyphState.registers (fieldX glyphState.opcode) = 16 ∧
    (OP_Fx29 glyphState).index = 0xA0 ∧
    (OP_Fx29 glyphState).index ≠ 0x50 + 5 * (16 % 16) := by
  decide

/-- C16, amended: for a register byte `v` the handler `OP_Fx29` leaves the
index register at `0x50 + 5 * v`; when `v` is a digit (`v ≤ 15`) this is
`0x50 + 5 * (v mod 16)`, the address of the five glyph bytes of `v`, which in
a freshly constructed machine are the fontset bytes `5 * v .. 5 * v + 4`. -/
theorem OP_Fx29_glyph_address (s : Chip8) (v : Nat)
    (hv : s.registers (fieldX s.opcode) = v) (hv8 : v < 256) :
    (OP_Fx29 s).index = 0x50 + 5 * v ∧
    (v ≤ 15 →
      (OP_Fx29 s).index = 0x50 + 5 * (v % 16) ∧
      ∀ k op, k < 5 →
        (Chip8.new op).memory ((OP_Fx29 s).index + k) = fontset.getD (5 * v + k) 0) := by
  have hidx : (OP_Fx29 s).index = 0x50 + 5 * v := by
    simp only [OP_Fx29, hv, FONTSET_START_ADDRESS]
    omega
  refine ⟨hidx, fun hv15 => ⟨?_, ?_⟩⟩
  · rw [hidx]; omega
  · intro k op hk
    rw [hidx]
    have hin : FONTSET_START_ADDRESS ≤ 0x50 + 5 * v + k ∧
        0x50 + 5 * v + k < FONTSET_START_ADDRESS + FONTSET_SIZE := by
      simp only [FONTSET_START_ADDRESS, FONTSET_SIZE]; omega
    have hsub : 0x50 + 5 * v + k - FONTSET_START_ADDRESS = 5 * v + k := by
      simp only [FONTSET_START_ADDRESS]; omega
    simp only [Chip8.new, hin, and_self, if_true, hsub]

/-- C16 (amended) exercised on `V0 = 0xA`, instruction `F029`: the index
register becomes `0x82`, where a fresh machine holds the glyph of `A`. -/
theorem OP_Fx29_glyph_address_witness :
    (OP_Fx29 (regState 0xA 0 0xF029)).index = 0x82 ∧
    (Chip8.new 0).memory 0x82 = 0xF0 ∧ (Chip8.new 0).memory 0x86 = 0x90 :=
  ⟨(OP_Fx29_glyph_address (regState 0xA 0 0xF029) 0xA (by decide) (by decide)).1,
   by decide, by decide⟩

/-! ## Dispatch of unmapped instruction words -/

/-- Unmapped secondary fields that lie inside the secondary table reach
`OP_NULL`: one cycle then only stores the fetched word, advances `pc` by two
and ticks the timers. -/
theorem Cycle_unmapped_in_table (r : Nat) (s : Chip8) (hi lo : Nat)
    (hpc : s.pc + 1 < 4096) (hhi : s.memory s.pc = hi) (hlo : s.memory (s.pc + 1) = lo)
    (hhi8 : hi < 256) (hlo8 : lo < 256)
    (hun : (hi / 16 = 0x0 ∧ lo % 16 ≠ 0x0 ∧ lo % 16 ≠ 0xE ∧ lo % 16 ≤ 0xE) ∨
      (hi / 16 = 0x8 ∧ 0x8 ≤ lo % 16 ∧ lo % 16 ≤ 0xD) ∨
      (hi / 16 = 0xE ∧ lo % 16 ≠ 0x1 ∧ lo % 16 ≠ 0xE ∧ lo % 16 ≤ 0xE) ∨
      (hi / 16 = 0xF ∧ lo ≠ 0x07 ∧ lo ≠ 0x0A ∧ lo ≠ 0x15 ∧ lo ≠ 0x18 ∧ lo ≠ 0x1E ∧
        lo ≠ 0x29 ∧ lo ≠ 0x33 ∧ lo ≠ 0x55 ∧ lo ≠ 0x65 ∧ lo ≤ 0x65)) :
    Cycle r s = some (tick { s with opcode := hi * 256 + lo, pc := s.pc + 2 }) := by
  have hstep := Cycle_fetch r s hi lo hpc hhi hlo hhi8 hlo8
  have hnib : (hi * 256 + lo) &&& 0x000F = lo % 16 := by rw [lowNibble_eq]; omega
  have hbyte : (hi * 256 + lo) &&& 0x00FF = lo := by rw [lowByte_eq]; omega
  rcases hun with ⟨h, h1, h2, h3⟩ | ⟨h, h1, h2⟩ | ⟨h, h1, h2, h3⟩ |
    ⟨h, h1, h2, h3, h4, h5, h6, h7, h8, h9, h10⟩
  · have htab : table r 0x0 = some Table0 := rfl
    have hslot : table0 (lo % 16) = some (total OP_NULL) := by
      simp only [table0, h1, h2, h3, if_false, if_true]
    rw [h, htab] at hstep
    simpa only [invoke, Table0, hnib, hslot, total, OP_NULL, Option.map_some'] using hstep
  · have htab : table r 0x8 = some Table8 := rfl
    have hslot : table8 (lo % 16) = some (total OP_NULL) := by
      unfold table8
      repeat rw [if_neg (by omega)]
      rw [if_pos (by omega)]
    rw [h, htab] at hstep
    simpa only [invoke, Table8, hnib, hslot, total, OP_NULL, Option.map_some'] using hstep
  · have htab : table r 0xE = some TableE := rfl
    have hslot : tableE (lo % 16) = some (total OP_NULL) := by
      simp only [tableE, h1, h2, h3, if_false, if_true]
    rw [h, htab] at hstep
    simpa only [invoke, TableE, hnib, hslot, total, OP_NULL, Option.map_some'] using hstep
  · have htab : table r 0xF = some TableF := rfl
    have hslot : tableF lo = some (total OP_NULL) := by
      simp only [tableF, h1, h2, h3, h4, h5, h6, h7, h8, h9, h10, if_false, if_true]
    rw [h, htab] at hstep
    simpa only [invoke, TableF, hbyte, hslot, total, OP_NULL, Option.map_some'] using hstep

/-- C14: the word `000F` (family 0, low nibble `0xF`) at `0x200`.  The slot
`table0[0xF]` lies past the fifteen entries of `table0`, so the cycle has no
defined handler to call; likewise `800F`, `E00F` and `F066` (slot `0x66` of
the `0x66`-entry `tableF`).  An unmapped word inside the tables, such as
`0001`, does reach the no-op. -/
theorem Cycle_unmapped_past_table :
    table0 0xF = none ∧ table8 0xF = none ∧ tableE 0xF = none ∧ tableF 0x66 = none ∧
    Cycle 0 (progState 0x00 0x0F) = none ∧
    Cycle 0 (progState 0x80 0x0F) = none ∧
    Cycle 0 (progState 0xE0 0x0F) = none ∧
    Cycle 0 (progState 0xF0 0x66) = none ∧
    (∃ s', Cycle 0 (progState 0x00 0x01) = some s' ∧ s'.pc = 0x202) :=
  ⟨rfl, rfl, rfl, rfl, rfl, rfl, rfl, rfl, _, rfl, rfl⟩

/-! ## The flag register after the flag-producing operations -/

theorem and_shift_bit (op k : Nat) : (op &&& (1 <<< k)) >>> k = op / 2 ^ k % 2 := by
  apply Nat.eq_of_testBit_eq
  intro i
  have h2 : op / 2 ^ k % 2 = op / 2 ^ k % 2 ^ 1 := by norm_num
  rw [h2, Nat.testBit_mod_two_pow, Nat.testBit_shiftRight, Nat.testBit_and,
    Nat.testBit_shiftLeft, ← Nat.shiftRight_eq_div_pow, Nat.testBit_shiftRight]
  have h1 : Nat.testBit 1 i = decide (i < 1) := Nat.testBit_two_pow_sub_one 1 i
  simp only [Nat.add_sub_cancel_left, Nat.le_add_right, decide_True, Bool.true_and]
  rw [h1, Bool.and_comm]

/-- C20, as the claim states it, fails when the destination is the flag
register: with `VF = 0x10`, `V0 = 0x20` the instruction `8F04` ends with
`VF = 0x30` (the sum), while the carry of `0x10 + 0x20` is 0. -/
theorem OP_8xy4_flag_destination :
    fieldX flagDestState.opcode = 0xF ∧ fieldY flagDestState.opcode = 0 ∧
    (OP_8xy4 flagDestState).registers 0xF = 0x30 ∧
    (OP_8xy4 flagDestState).registers 0xF ≠ (if 0x10 + 0x20 > 255 then 1 else 0) := by
  decide

/-- C20, amended: when the destination `x` is not the flag register, each
flag-producing operation ends with `V[0xF]` holding a flag computed from the
operand bytes `a = V[x]`, `b = V[y]` before the operation: the carry of
`a + b` for `8xy4`, the shifted-out low bit for `8xy6`, the shifted-out top
bit for `8xyE`, and for the subtractions `8xy5`, `8xy7` a value in `{0, 1}`
that is 1 when the minuend is greater and 0 when it is smaller. -/
theorem flag_after_flag_ops (s : Chip8) (x y a b : Nat)
    (hx : fieldX s.opcode = x) (hy : fieldY s.opcode = y) (hxF : x ≠ 0xF)
    (ha : s.registers x = a) (hb : s.registers y = b)
    (ha8 : a < 256) (hb8 : b < 256) :
    (OP_8xy4 s).registers 0xF = (if a + b > 255 then 1 else 0) ∧
    ((OP_8xy5 s).registers 0xF ≤ 1 ∧ (a > b → (OP_8xy5 s).registers 0xF = 1) ∧
      (a < b → (OP_8xy5 s).registers 0xF = 0)) ∧
    ((OP_8xy7 s).registers 0xF ≤ 1 ∧ (b > a → (OP_8xy7 s).registers 0xF = 1) ∧
      (b < a → (OP_8xy7 s).registers 0xF = 0)) ∧
    (OP_8xy6 s).registers 0xF = a % 2 ∧
    (OP_8xyE s).registers 0xF = a / 128 := by
  have hFx : (0xF : Nat) ≠ x := Ne.symm hxF
  have hsum : (a + b) % 65536 = a + b := Nat.mod_eq_of_lt (by omega)
  have h5 : (OP_8xy5 s).registers 0xF = (if a > b then 1 else 0) := by
    simp only [OP_8xy5, hx, hy, ha, hb]
    rw [store_other _ _ _ _ hFx]
    split <;> simp [store, Vf]
  have h7 : (OP_8xy7 s).registers 0xF = (if b > a then 1 else 0) := by
    simp only [OP_8xy7, hx, hy, ha, hb]
    rw [store_other _ _ _ _ hFx]
    simp [store, Vf]
  refine ⟨?_, ⟨?_, ?_, ?_⟩, ⟨?_, ?_, ?_⟩, ?_, ?_⟩
  · simp only [OP_8xy4, hx, hy, ha, hb, hsum]
    rw [store_other _ _ _ _ hFx]
    split <;> simp [store, Vf]
  · rw [h5]; split <;> omega
  · intro h; rw [h5, if_pos h]
  · intro h; rw [h5, if_neg (by omega)]
  · rw [h7]; split <;> omega
  · intro h; rw [h7, if_pos h]
  · intro h; rw [h7, if_neg (by omega)]
  · simp only [OP_8xy6, hx, ha]
    rw [store_other _ _ _ _ hFx]
    simp only [Vf, store_same]
    exact Nat.and_pow_two_sub_one_eq_mod a 1
  · simp only [OP_8xyE, hx, ha]
    rw [store_other _ _ _ _ hFx]
    simp only [Vf, store_same]
    have h := and_shift_bit a 7
    have h128 : (1 <<< 7 : Nat) = 0x80 := by decide
    rw [h128] at h
    rw [h]
    omega

/-- C20 (amended) exercised on `V0 = 0xFF`, `V1 = 0x01` with `x = 0`,
`y = 1`: carry 1, no-borrow 1, reverse difference flag 0, low bit 1, top
bit 1. -/
theorem flag_after_flag_ops_witness :
    (OP_8xy4 (regState 0xFF 0x01 0x8014)).registers 0xF = 1 ∧
    (OP_8xy5 (regState 0xFF 0x01 0x8014)).registers 0xF = 1 ∧
    (OP_8xy7 (regState 0xFF 0x01 0x8014)).registers 0xF = 0 ∧
    (OP_8xy6 (regState 0xFF 0x01 0x8014)).registers 0xF = 1 ∧
    (OP_8xyE (regState 0xFF 0x01 0x8014)).registers 0xF = 1 := by
  have h := flag_after_flag_ops (regState 0xFF 0x01 0x8014) 0 1 0xFF 0x01
    (by decide) (by decide) (by decide) (by decide) (by decide) (by decide) (by decide)
  exact ⟨h.1, h.2.1.2.1 (by decide), h.2.2.1.2.2 (by decide), h.2.2.2.1, h.2.2.2.2⟩

/-! ## Counted loops -/

/-- Invariant rule for `forLoop`: an invariant that holds at the start and is
carried by every iteration of the body (which therefore performs no access
outside its arrays) holds at the end, and the loop has a result. -/
theorem forLoop_invariant (Inv : Nat → Chip8 → Prop) (body : Nat → Chip8 → Option Chip8) :
    ∀ (k i : Nat) (s : Chip8), Inv i s →
      (∀ j t, i ≤ j → j < i + k → Inv j t → ∃ t', body j t = some t' ∧ Inv (j + 1) t') →
      ∃ s', forLoop k i body s = some s' ∧ Inv (i + k) s' := by
  intro k
  induction k with
  | zero =>
    intro i s h0 _
    exact ⟨s, rfl, h0⟩
  | succ k ih =>
    intro i s h0 hstep
    obtain ⟨t, ht, hinv⟩ := hstep i s (le_refl _) (by omega) h0
    obtain ⟨s', hs', hinv'⟩ :=
      ih (i + 1) t hinv (fun j u h1 h2 hu => hstep j u (by omega) (by omega) hu)
    refine ⟨s', ?_, ?_⟩
    · simp only [forLoop, ht]
      exact hs'
    · have hik : i + (k + 1) = i + 1 + k := by omega
      rw [hik]
      exact hinv'

/-- A quantity that no iteration of the body changes is unchanged by the
loop. -/
theorem forLoop_preserves {α : Type} (f : Chip8 → α) (body : Nat → Chip8 → Option Chip8)
    (hbody : ∀ j t t', body j t = some t' → f t' = f t) :
    ∀ (k i : Nat) (s s' : Chip8), forLoop k i body s = some s' → f s' = f s := by
  intro k
  induction k with
  | zero =>
    intro i s s' h
    simp only [forLoop, Option.some.injEq] at h
    rw [h]
  | succ k ih =>
    intro i s s' h
    simp only [forLoop] at h
    cases hb : body i s with
    | none => rw [hb] at h; exact absurd h (by simp)
    | some t =>
      rw [hb] at h
      exact (ih (i + 1) t s' h).trans (hbody i s t hb)

/-! ## Register block store and load -/

/-- Result of `OP_Fx55` when the block fits in memory: the bytes
`memory[I .. I + x]` become `V[0 .. x]` and nothing else changes. -/
theorem OP_Fx55_result (s : Chip8) (hfit : s.index + fieldX s.opcode ≤ 4095) :
    OP_Fx55 s = some
      { s with
        memory := fun a =>
          if s.index ≤ a ∧ a < s.index + (fieldX s.opcode + 1) then s.registers (a - s.index)
          else s.memory a } := by
  have h := forLoop_invariant
    (fun j t => t = { s with
      memory := fun a =>
        if s.index ≤ a ∧ a < s.index + j then s.registers (a - s.index) else s.memory a })
    (fun i t =>
      if t.index + i < 4096 then
        some { t with memory := store t.memory (t.index + i) (t.registers i) }
      else none)
    (fieldX s.opcode + 1) 0 s
    (by
      refine Chip8.ext rfl ?_ rfl rfl rfl rfl rfl rfl rfl rfl rfl
      funext a
      dsimp only
      rw [if_neg (by omega)])
    (by
      intro j t _ hj ht
      subst ht
      refine ⟨_, if_pos (by show s.index + j < 4096; omega), ?_⟩
      refine Chip8.ext rfl ?_ rfl rfl rfl rfl rfl rfl rfl rfl rfl
      funext a
      dsimp only [store]
      by_cases ha : a = s.index + j
      · subst ha
        rw [if_pos rfl, if_pos (by omega)]
        congr 1
        omega
      · rw [if_neg ha]
        by_cases hin : s.index ≤ a ∧ a < s.index + j
        · rw [if_pos hin, if_pos (by omega)]
        · rw [if_neg hin, if_neg (by omega)])
  obtain ⟨s', hrun, hs'⟩ := h
  rw [Nat.zero_add] at hs'
  unfold OP_Fx55
  rw [hrun, hs']

/-- Result of `OP_Fx65` when the block fits in memory: the registers
`V[0 .. x]` become `memory[I .. I + x]` and nothing else changes. -/
theorem OP_Fx65_result (t : Chip8) (hfit : t.index + fieldX t.opcode ≤ 4095) :
    OP_Fx65 t = some
      { t with
        registers := fun i =>
          if i < fieldX t.opcode + 1 then t.memory (t.index + i) else t.registers i } := by
  have h := forLoop_invariant
    (fun j u => u = { t with
      registers := fun i => if i < j then t.memory (t.index + i) else t.registers i })
    (fun i u =>
      if u.index + i < 4096 then
        some { u with registers := store u.registers i (u.memory (u.index + i)) }
      else none)
    (fieldX t.opcode + 1) 0 t
    (by
      refine Chip8.ext ?_ rfl rfl rfl rfl rfl rfl rfl rfl rfl rfl
      funext i
      dsimp only
      rw [if_neg (by omega)])
    (by
      intro j u _ hj hu
      subst hu
      refine ⟨_, if_pos (by show t.index + j < 4096; omega), ?_⟩
      refine Chip8.ext ?_ rfl rfl rfl rfl rfl rfl rfl rfl rfl rfl
      funext i
      dsimp only [store]
      by_cases hi : i = j
      · subst hi
        rw [if_pos rfl, if_pos (by omega)]
      · rw [if_neg hi]
        by_cases hin : i < j
        · rw [if_pos hin, if_pos (by omega)]
        · rw [if_neg hin, if_neg (by omega)])
  obtain ⟨t', hrun, ht'⟩ := h
  rw [Nat.zero_add] at ht'
  unfold OP_Fx65
  rw [hrun, ht']

/-- C17: register block store/load round trip.  For operand `x` and index
`I` with `I + x ≤ 4095`, `OP_Fx55` writes `memory[I + i] = V[i]` for
`i = 0 .. x` and leaves all other memory, all registers and the index
register unchanged; `OP_Fx65` run afterwards with the same `x` and `I` on
that memory, from any register contents, sets `V[0 .. x]` to the stored
values and leaves `V[x + 1 ..]` untouched. -/
theorem block_store_load (s : Chip8) (x I : Nat)
    (hx : fieldX s.opcode = x) (hI : s.index = I) (hfit : I + x ≤ 4095) :
    ∃ s1, OP_Fx55 s = some s1 ∧
      (∀ i, i ≤ x → s1.memory (I + i) = s.registers i) ∧
      (∀ a, a < I ∨ I + x < a → s1.memory a = s.memory a) ∧
      s1.registers = s.registers ∧ s1.index = s.index ∧
      ∀ t : Chip8, fieldX t.opcode = x → t.index = I → t.memory = s1.memory →
        ∃ t', OP_Fx65 t = some t' ∧
          (∀ i, i ≤ x → t'.registers i = s.registers i) ∧
          (∀ i, x < i → t'.registers i = t.registers i) ∧
          t'.memory = t.memory ∧ t'.index = t.index := by
  subst hx hI
  have hstore : ∀ i, i ≤ fieldX s.opcode →
      (if s.index ≤ s.index + i ∧ s.index + i < s.index + (fieldX s.opcode + 1) then
        s.registers (s.index + i - s.index) else s.memory (s.index + i)) = s.registers i := by
    intro i hi
    rw [if_pos (by omega)]
    congr 1
    omega
  refine ⟨_, OP_Fx55_result s hfit, hstore, ?_, rfl, rfl, ?_⟩
  · intro a ha
    dsimp only
    rw [if_neg (by omega)]
  · intro t htx htI htm
    refine ⟨_, OP_Fx65_result t (by rw [htx, htI]; exact hfit), ?_, ?_, rfl, rfl⟩
    · intro i hi
      dsimp only
      rw [if_pos (by omega), htm, htI]
      exact hstore i hi
    · intro i hi
      dsimp only
      rw [if_neg (by omega)]

/-- C17 exercised on `blockState` (`F255`, `V0..V3 = 7, 8, 9, 10`,
`I = 0x300`): memory receives `7, 8, 9` and not `V3`; `F265` on that memory
from registers all `0xAA` restores `V0..V2` and leaves `V3 = 0xAA`. -/
theorem block_store_load_witness :
    ∃ s1 t', OP_Fx55 blockState = some s1 ∧
      s1.memory 0x300 = 7 ∧ s1.memory 0x302 = 9 ∧ s1.memory 0x303 = 0 ∧
      OP_Fx65 { blank with registers := fun _ => 0xAA, memory := s1.memory,
                           index := 0x300, opcode := 0xF265 } = some t' ∧
      t'.registers 0 = 7 ∧ t'.registers 2 = 9 ∧ t'.registers 3 = 0xAA := by
  obtain ⟨s1, hrun, hmem, hother, _, _, hload⟩ :=
    block_store_load blockState 2 0x300 (by decide) (by decide) (by decide)
  obtain ⟨t', hrun', hregs, hrest, _⟩ :=
    hload { blank with registers := fun _ => 0xAA, memory := s1.memory,
                       index := 0x300, opcode := 0xF265 }
      (show fieldX 0xF265 = 2 by decide) rfl rfl
  exact ⟨s1, t', hrun, hmem 0 (by decide), hmem 2 (by decide),
    hother 0x303 (Or.inr (by decide)), hrun', hregs 0 (by decide), hregs 2 (by decide),
    hrest 3 (by decide)⟩

/-! ## Timers -/

theorem timers_ite (c : Prop) [Decidable c] (a b s : Chip8)
    (ha : timers a = timers s) (hb : timers b = timers s) :
    timers (if c then a else b) = timers s := by
  split_ifs <;> assumption

/-- The handlers without array hazards, other than the two timer-setting
ones, leave both timers alone. -/
theorem total_handlers_keep_timers (r : Nat) (s : Chip8) :
    timers (OP_NULL s) = timers s ∧ timers (OP_00E0 s) = timers s ∧
    timers (OP_1nnn s) = timers s ∧ timers (OP_3xkk s) = timers s ∧
    timers (OP_4xkk s) = timers s ∧ timers (OP_5xy0 s) = timers s ∧
    timers (OP_6xkk s) = timers s ∧ timers (OP_7xkk s) = timers s ∧
    timers (OP_8xy0 s) = timers s ∧ timers (OP_8xy1 s) = timers s ∧
    timers (OP_8xy2 s) = timers s ∧ timers (OP_8xy3 s) = timers s ∧
    timers (OP_8xy4 s) = timers s ∧ timers (OP_8xy5 s) = timers s ∧
    timers (OP_8xy6 s) = timers s ∧ timers (OP_8xy7 s) = timers s ∧
    timers (OP_8xyE s) = timers s ∧ timers (OP_9xy0 s) = timers s ∧
    timers (OP_Annn s) = timers s ∧ timers (OP_Bnnn s) = timers s ∧
    timers (OP_Cxkk r s) = timers s ∧ timers (OP_Fx07 s) = timers s ∧
    timers (OP_Fx0A s) = timers s ∧ timers (OP_Fx1E s) = timers s ∧
    timers (OP_Fx29 s) = timers s := by
  refine ⟨rfl, rfl, rfl, ?_, ?_, ?_, rfl, rfl, rfl, rfl, rfl, rfl, rfl, rfl, rfl, rfl, rfl,
    ?_, rfl, rfl, rfl, rfl, ?_, rfl, rfl⟩
  · unfold OP_3xkk; dsimp only; split_ifs <;> rfl
  · unfold OP_4xkk; dsimp only; split_ifs <;> rfl
  · unfold OP_5xy0; dsimp only; split_ifs <;> rfl
  · unfold OP_9xy0; dsimp only; split_ifs <;> rfl
  · unfold OP_Fx0A
    dsimp only
    repeat' apply timers_ite
    all_goals rfl

theorem OP_00EE_keeps_timers (s s' : Chip8) (h : OP_00EE s = some s') :
    timers s' = timers s := by
  unfold OP_00EE at h
  dsimp only at h
  split_ifs at h
  simp only [Option.some.injEq] at h
  rw [← h]; rfl

theorem OP_2nnn_keeps_timers (s s' : Chip8) (h : OP_2nnn s = some s') :
    timers s' = timers s := by
  unfold OP_2nnn at h
  dsimp only at h
  split_ifs at h
  simp only [Option.some.injEq] at h
  rw [← h]; rfl

theorem OP_Ex9E_keeps_timers (s s' : Chip8) (h : OP_Ex9E s = some s') :
    timers s' = timers s := by
  unfold OP_Ex9E at h
  dsimp only at h
  split_ifs at h <;> (simp only [Option.some.injEq] at h; subst h; rfl)

theorem OP_ExA1_keeps_timers (s s' : Chip8) (h : OP_ExA1 s = some s') :
    timers s' = timers s := by
  unfold OP_ExA1 at h
  dsimp only at h
  split_ifs at h <;> (simp only [Option.some.injEq] at h; subst h; rfl)

theorem OP_Fx33_keeps_timers (s s' : Chip8) (h : OP_Fx33 s = some s') :
    timers s' = timers s := by
  unfold OP_Fx33 at h
  dsimp only at h
  split_ifs at h
  simp only [Option.some.injEq] at h
  rw [← h]; rfl

theorem OP_Fx55_keeps_timers (s s' : Chip8) (h : OP_Fx55 s = some s') :
    timers s' = timers s := by
  refine forLoop_preserves timers _ ?_ _ _ s s' h
  intro j t t' hb
  split_ifs at hb
  simp only [Option.some.injEq] at hb
  rw [← hb]; rfl

theorem OP_Fx65_keeps_timers (s s' : Chip8) (h : OP_Fx65 s = some s') :
    timers s' = timers s := by
  refine forLoop_preserves timers _ ?_ _ _ s s' h
  intro j t t' hb
  split_ifs at hb
  simp only [Option.some.injEq] at hb
  rw [← hb]; rfl

theorem drawPixel_keeps_timers (xPos yPos row b col : Nat) (t t' : Chip8)
    (h : drawPixel xPos yPos row b col t = some t') : timers t' = timers t := by
  unfold drawPixel at h
  dsimp only at h
  split_ifs at h <;> (simp only [Option.some.injEq] at h; subst h; rfl)

theorem OP_Dxyn_keeps_timers (s s' : Chip8) (h : OP_Dxyn s = some s') :
    timers s' = timers s := by
  refine forLoop_preserves timers _ ?_ _ _ s s' h
  intro row t t' hb
  unfold drawRow at hb
  dsimp only at hb
  split_ifs at hb
  exact forLoop_preserves timers _ (drawPixel_keeps_timers _ _ _ _) _ _ t t' hb

theorem Table0_keeps_timers (s s' : Chip8) (h : Table0 s = some s') :
    timers s' = timers s := by
  have H := total_handlers_keep_timers 0 s
  simp only [invoke, Table0, table0] at h
  split_ifs at h <;> simp only [invoke, total, Option.some.injEq] at h <;>
    first
      | exact OP_00EE_keeps_timers s s' h
      | (subst h; simp only [H])

theorem Table8_keeps_timers (s s' : Chip8) (h : Table8 s = some s') :
    timers s' = timers s := by
  have H := total_handlers_keep_timers 0 s
  unfold Table8 at h
  generalize s.opcode &&& 0x000F = j at h
  have hj : j < 15 := by
    unfold table8 at h
    by_contra hj
    repeat rw [if_neg (by omega)] at h
    simp [invoke] at h
  interval_cases j <;> simp [table8, invoke, total] at h <;> (subst h; simp only [H])

theorem TableE_keeps_timers (s s' : Chip8) (h : TableE s = some s') :
    timers s' = timers s := by
  have H := total_handlers_keep_timers 0 s
  simp only [invoke, TableE, tableE] at h
  split_ifs at h <;> simp only [invoke, total, Option.some.injEq] at h <;>
    first
      | exact OP_ExA1_keeps_timers s s' h
      | exact OP_Ex9E_keeps_timers s s' h
      | (subst h; simp only [H])

theorem TableF_keeps_timers (s s' : Chip8) (h : TableF s = some s')
    (h15 : s.opcode &&& 0x00FF ≠ 0x15) (h18 : s.opcode &&& 0x00FF ≠ 0x18) :
    timers s' = timers s := by
  have H := total_handlers_keep_timers 0 s
  simp only [invoke, TableF, tableF, h15, h18, if_false] at h
  split_ifs at h <;> simp only [invoke, total, Option.some.injEq] at h <;>
    first
      | exact OP_Fx33_keeps_timers s s' h
      | exact OP_Fx55_keeps_timers s s' h
      | exact OP_Fx65_keeps_timers s s' h
      | (subst h; simp only [H])

/-- Every handler reachable through the dispatch tables, other than `OP_Fx15`
and `OP_Fx18`, leaves both timers alone. -/
theorem dispatch_keeps_timers (r i : Nat) (s s' : Chip8)
    (h : invoke (table r i) s = some s')
    (hnot : ¬(i = 0xF ∧ (s.opcode &&& 0x00FF = 0x15 ∨ s.opcode &&& 0x00FF = 0x18))) :
    timers s' = timers s := by
  have H := total_handlers_keep_timers r s
  have hi : i < 16 := by
    unfold table at h
    by_contra hi
    repeat rw [if_neg (by omega)] at h
    simp [invoke] at h
  interval_cases i <;> simp [table, invoke, total] at h <;>
    first
      | exact Table0_keeps_timers s s' h
      | exact OP_2nnn_keeps_timers s s' h
      | exact Table8_keeps_timers s s' h
      | exact OP_Dxyn_keeps_timers s s' h
      | exact TableE_keeps_timers s s' h
      | exact TableF_keeps_timers s s' h (fun g => hnot ⟨rfl, Or.inl g⟩)
          (fun g => hnot ⟨rfl, Or.inr g⟩)
      | (subst h; simp only [H])

/-- Whenever one cycle on an instruction other than `Fx15` and `Fx18` has a
result, each of `delayTimer` and `soundTimer` afterwards is its value before
the cycle minus one if that value was nonzero, and still 0 if it was 0. -/
theorem timers_tick (r : Nat) (s s' : Chip8) (hi lo : Nat)
    (hrun : Cycle r s = some s')
    (hhi : s.memory s.pc = hi) (hlo : s.memory (s.pc + 1) = lo)
    (hhi8 : hi < 256) (hlo8 : lo < 256)
    (hnot : ¬(hi / 16 = 0xF ∧ (lo = 0x15 ∨ lo = 0x18))) :
    s'.delayTimer = (if s.delayTimer ≠ 0 then s.delayTimer - 1 else 0) ∧
    s'.soundTimer = (if s.soundTimer ≠ 0 then s.soundTimer - 1 else 0) := by
  have hpc : s.pc + 1 < 4096 := by
    by_contra hpc
    simp only [Cycle, hpc, if_false] at hrun
    exact absurd hrun (by simp)
  rw [Cycle_fetch r s hi lo hpc hhi hlo hhi8 hlo8] at hrun
  obtain ⟨s2, hs2, htick⟩ := Option.map_eq_some'.mp hrun
  have hbyte : (hi * 256 + lo) &&& 0x00FF = lo := by rw [lowByte_eq]; omega
  have hkeep := dispatch_keeps_timers r (hi / 16) _ s2 hs2
    (by
      show ¬(hi / 16 = 0xF ∧
        ((hi * 256 + lo) &&& 0x00FF = 0x15 ∨ (hi * 256 + lo) &&& 0x00FF = 0x18))
      rw [hbyte]
      exact hnot)
  have hd : s2.delayTimer = s.delayTimer := congrArg Prod.fst hkeep
  have hs : s2.soundTimer = s.soundTimer := congrArg Prod.snd hkeep
  rw [← htick, tick_delayTimer, tick_soundTimer, hd, hs]
  exact ⟨rfl, rfl⟩

/-! ## The draw instruction -/

theorem plotted_succ (mem : Nat → Nat) (I xPos yPos row col c : Nat) (hcol : col < 8) :
    plotted mem I xPos yPos (8 * row + col + 1) c ↔
      plotted mem I xPos yPos (8 * row + col) c ∨
        (spriteBit (mem (I + row)) col ∧ c = cellOf xPos yPos row col) := by
  constructor
  · rintro ⟨r, k, hk, hlt, hbit, hc⟩
    by_cases h : 8 * r + k < 8 * row + col
    · exact Or.inl ⟨r, k, hk, h, hbit, hc⟩
    · have hrk : r = row ∧ k = col := by omega
      obtain ⟨hr, hk'⟩ := hrk
      subst hr hk'
      exact Or.inr ⟨hbit, hc⟩
  · rintro (⟨r, k, hk, hlt, hbit, hc⟩ | ⟨hbit, hc⟩)
    · exact ⟨r, k, hk, by omega, hbit, hc⟩
    · exact ⟨row, col, hcol, by omega, hbit, hc⟩

/-- Distinct sprite pixels have distinct cells: the cell of pixel
`(row, col)` is not the target of any pixel visited before it. -/
theorem plotted_fresh (mem : Nat → Nat) (I xPos yPos row col : Nat) (hcol : col < 8) :
    ¬plotted mem I xPos yPos (8 * row + col) (cellOf xPos yPos row col) := by
  rintro ⟨r, k, hk, hlt, _, hc⟩
  unfold cellOf VIDEO_WIDTH at hc
  omega

/-- After all `8 * n` pixels, the plotted cells are those of the set bits of
the rows `0 .. n - 1`. -/
theorem plotted_all (mem : Nat → Nat) (I xPos yPos n c : Nat) :
    plotted mem I xPos yPos (8 * n) c ↔
      ∃ row col, row < n ∧ col < 8 ∧ spriteBit (mem (I + row)) col ∧
        c = cellOf xPos yPos row col := by
  constructor
  · rintro ⟨r, k, hk, hlt, hbit, hc⟩
    exact ⟨r, k, by omega, hk, hbit, hc⟩
  · rintro ⟨r, k, hr, hk, hbit, hc⟩
    exact ⟨r, k, hk, by omega, hbit, hc⟩

theorem Drawn.memory_eq {s t : Chip8} {xPos yPos m : Nat} (h : Drawn s xPos yPos m t) :
    t.memory = s.memory := by
  have h1 := congrArg Chip8.memory h.frame
  exact h1

theorem Drawn.index_eq {s t : Chip8} {xPos yPos m : Nat} (h : Drawn s xPos yPos m t) :
    t.index = s.index := by
  have h1 := congrArg Chip8.index h.frame
  exact h1

theorem Drawn.opcode_eq {s t : Chip8} {xPos yPos m : Nat} (h : Drawn s xPos yPos m t) :
    t.opcode = s.opcode := by
  have h1 := congrArg Chip8.opcode h.frame
  exact h1

/-- Nothing is drawn before the loops start. -/
theorem Drawn.start (s : Chip8) (xPos yPos : Nat) : Drawn s xPos yPos 0 s where
  frame := rfl
  regs := fun _ _ => rfl
  flipped := by
    rintro c ⟨_, _, _, hlt, _⟩
    omega
  kept := fun _ _ => rfl
  hit := by
    rintro ⟨c, ⟨_, _, _, hlt, _⟩, _⟩
    omega
  miss := fun _ => rfl

/-- One pixel of the inner loop carries the drawing invariant forward. -/
theorem drawPixel_step (s t : Chip8) (xPos yPos row col : Nat) (hcol : col < 8)
    (hinv : Drawn s xPos yPos (8 * row + col) t)
    (hform : cellOf xPos yPos row col ≤ VIDEO_WIDTH * VIDEO_HEIGHT)
    (hin : spriteBit (s.memory (s.index + row)) col →
      cellOf xPos yPos row col < VIDEO_WIDTH * VIDEO_HEIGHT) :
    ∃ t', drawPixel xPos yPos row (s.memory (s.index + row)) col t = some t' ∧
      Drawn s xPos yPos (8 * row + col + 1) t' := by
  have hform' : (yPos + row) * VIDEO_WIDTH + (xPos + col) ≤ VIDEO_WIDTH * VIDEO_HEIGHT :=
    hform
  have hsucc := fun c => plotted_succ s.memory s.index xPos yPos row col c hcol
  have hfresh := plotted_fresh s.memory s.index xPos yPos row col hcol
  have hv : t.video (cellOf xPos yPos row col) = s.video (cellOf xPos yPos row col) :=
    hinv.kept _ hfresh
  by_cases hbit : spriteBit (s.memory (s.index + row)) col
  · have hbit' : s.memory (s.index + row) &&& (0x80 >>> col) ≠ 0 := hbit
    have hc : (yPos + row) * VIDEO_WIDTH + (xPos + col) < VIDEO_WIDTH * VIDEO_HEIGHT :=
      hin hbit
    by_cases hon : s.video (cellOf xPos yPos row col) = 0xFFFFFFFF
    · have hon' : t.video ((yPos + row) * VIDEO_WIDTH + (xPos + col)) = 0xFFFFFFFF :=
        hv.trans hon
      refine ⟨_, by unfold drawPixel; dsimp only; rw [if_pos hform', if_pos hbit', if_pos hc,
        if_pos hon'], ?_⟩
      constructor
      · exact hinv.frame
      · intro i hi
        show store t.registers 0xF 1 i = s.registers i
        rw [store_other _ _ _ _ hi]
        exact hinv.regs i hi
      · intro c hc'
        show store t.video (cellOf xPos yPos row col) _ c = _
        rcases (hsucc c).mp hc' with hold | ⟨_, hnew⟩
        · have hne : c ≠ cellOf xPos yPos row col := fun h => hfresh (h ▸ hold)
          rw [store_other _ _ _ _ hne]
          exact hinv.flipped c hold
        · subst hnew
          rw [store_same]
          show (t.video (cellOf xPos yPos row col) ^^^ 0xFFFFFFFF) % 4294967296 = _
          rw [hv]
      · intro c hc'
        show store t.video (cellOf xPos yPos row col) _ c = _
        have hnot : ¬plotted s.memory s.index xPos yPos (8 * row + col) c :=
          fun h => hc' ((hsucc c).mpr (Or.inl h))
        have hne : c ≠ cellOf xPos yPos row col :=
          fun h => hc' ((hsucc c).mpr (Or.inr ⟨hbit, h⟩))
        rw [store_other _ _ _ _ hne]
        exact hinv.kept c hnot
      · intro _
        show store t.registers Vf 1 0xF = 1
        exact store_same _ _ _
      · intro hno
        exact absurd ⟨_, (hsucc _).mpr (Or.inr ⟨hbit, rfl⟩), hon⟩ hno
    · have hon' : ¬t.video ((yPos + row) * VIDEO_WIDTH + (xPos + col)) = 0xFFFFFFFF :=
        fun h => hon (hv.symm.trans h)
      refine ⟨_, by unfold drawPixel; dsimp only; rw [if_pos hform', if_pos hbit', if_pos hc,
        if_neg hon'], ?_⟩
      constructor
      · exact hinv.frame
      · exact hinv.regs
      · intro c hc'
        show store t.video (cellOf xPos yPos row col) _ c = _
        rcases (hsucc c).mp hc' with hold | ⟨_, hnew⟩
        · have hne : c ≠ cellOf xPos yPos row col := fun h => hfresh (h ▸ hold)
          rw [store_other _ _ _ _ hne]
          exact hinv.flipped c hold
        · subst hnew
          rw [store_same]
          show (t.video (cellOf xPos yPos row col) ^^^ 0xFFFFFFFF) % 4294967296 = _
          rw [hv]
      · intro c hc'
        show store t.video (cellOf xPos yPos row col) _ c = _
        have hnot : ¬plotted s.memory s.index xPos yPos (8 * row + col) c :=
          fun h => hc' ((hsucc c).mpr (Or.inl h))
        have hne : c ≠ cellOf xPos yPos row col :=
          fun h => hc' ((hsucc c).mpr (Or.inr ⟨hbit, h⟩))
        rw [store_other _ _ _ _ hne]
        exact hinv.kept c hnot
      · rintro ⟨c, hc', hcon⟩
        rcases (hsucc c).mp hc' with hold | ⟨_, hnew⟩
        · exact hinv.hit ⟨c, hold, hcon⟩
        · exact absurd (hnew ▸ hcon) hon
      · intro hno
        exact hinv.miss (fun ⟨c, hold, hcon⟩ => hno ⟨c, (hsucc c).mpr (Or.inl hold), hcon⟩)
  · have hbit' : ¬s.memory (s.index + row) &&& (0x80 >>> col) ≠ 0 := hbit
    have hsame : ∀ c, plotted s.memory s.index xPos yPos (8 * row + col + 1) c ↔
        plotted s.memory s.index xPos yPos (8 * row + col) c := by
      intro c
      rw [hsucc c]
      exact ⟨fun h => h.elim id (fun h' => absurd h'.1 hbit), Or.inl⟩
    refine ⟨t, by unfold drawPixel; dsimp only; rw [if_pos hform', if_neg hbit'], ?_⟩
    constructor
    · exact hinv.frame
    · exact hinv.regs
    · intro c hc'
      exact hinv.flipped c ((hsame c).mp hc')
    · intro c hc'
      exact hinv.kept c (fun h => hc' ((hsame c).mpr h))
    · rintro ⟨c, hc', hcon⟩
      exact hinv.hit ⟨c, (hsame c).mp hc', hcon⟩
    · intro hno
      exact hinv.miss (fun ⟨c, hold, hcon⟩ => hno ⟨c, (hsame c).mpr hold, hcon⟩)


/-- One row of the outer loop carries the drawing invariant forward. -/
theorem drawRow_step (s t : Chip8) (xPos yPos row : Nat)
    (hinv : Drawn s xPos yPos (8 * row) t) (hmem : s.index + row < 4096)
    (hform : ∀ col, col < 8 → cellOf xPos yPos row col ≤ VIDEO_WIDTH * VIDEO_HEIGHT)
    (hin : ∀ col, col < 8 → spriteBit (s.memory (s.index + row)) col →
      cellOf xPos yPos row col < VIDEO_WIDTH * VIDEO_HEIGHT) :
    ∃ t', drawRow xPos yPos row t = some t' ∧ Drawn s xPos yPos (8 * (row + 1)) t' := by
  have h := forLoop_invariant (fun col u => Drawn s xPos yPos (8 * row + col) u)
    (drawPixel xPos yPos row (s.memory (s.index + row))) 8 0 t hinv
    (fun j u _ hj hu => drawPixel_step s u xPos yPos row j (by omega) hu
      (hform j (by omega)) (hin j (by omega)))
  obtain ⟨t', hrun, ht'⟩ := h
  refine ⟨t', ?_, ?_⟩
  · unfold drawRow
    dsimp only
    rw [hinv.index_eq, hinv.memory_eq, if_pos hmem]
    exact hrun
  · have hm : 8 * (row + 1) = 8 * row + (0 + 8) := by omega
    rw [hm]
    exact ht'

/-- Result of `OP_Dxyn` when the sprite rows lie inside memory, every pixel
of the sprite has a cell index the framebuffer array can address and every
set sprite bit has its cell inside the array: the handler has a result, and
that result is `Drawn` from the initial state over all `8 * height`
pixels. -/
theorem OP_Dxyn_result (s : Chip8)
    (hmem : s.index + (s.opcode &&& 0x000F) ≤ 4096)
    (hform : ∀ row col, row < s.opcode &&& 0x000F → col < 8 →
      cellOf (s.registers (fieldX s.opcode) % VIDEO_WIDTH)
        (s.registers (fieldY s.opcode) % VIDEO_HEIGHT) row col ≤ VIDEO_WIDTH * VIDEO_HEIGHT)
    (hin : ∀ row col, row < s.opcode &&& 0x000F → col < 8 →
      spriteBit (s.memory (s.index + row)) col →
      cellOf (s.registers (fieldX s.opcode) % VIDEO_WIDTH)
        (s.registers (fieldY s.opcode) % VIDEO_HEIGHT) row col < VIDEO_WIDTH * VIDEO_HEIGHT) :
    ∃ s', OP_Dxyn s = some s' ∧
      Drawn s (s.registers (fieldX s.opcode) % VIDEO_WIDTH)
        (s.registers (fieldY s.opcode) % VIDEO_HEIGHT) (8 * (s.opcode &&& 0x000F)) s' := by
  have h := forLoop_invariant
    (fun row u => Drawn s (s.registers (fieldX s.opcode) % VIDEO_WIDTH)
      (s.registers (fieldY s.opcode) % VIDEO_HEIGHT) (8 * row) u)
    (drawRow (s.registers (fieldX s.opcode) % VIDEO_WIDTH)
      (s.registers (fieldY s.opcode) % VIDEO_HEIGHT))
    (s.opcode &&& 0x000F) 0 s (Drawn.start s _ _)
    (fun j u _ hj hu => drawRow_step s u _ _ j hu (by omega)
      (fun col hcol => hform j col (by omega) hcol)
      (fun col hcol hbit => hin j col (by omega) hcol hbit))
  obtain ⟨s', hrun, hs'⟩ := h
  rw [Nat.zero_add] at hs'
  exact ⟨s', hrun, hs'⟩


/-- C12: draw twice.  For a sprite of `n` rows at `memory[I .. I + n - 1]`
and position registers `x`, `y` (both other than `0xF`) placing it wholly
inside the framebuffer, starting from an all-off framebuffer with
`V[0xF] = 0`: the first `OP_Dxyn` turns on exactly the cells under set sprite
bits and leaves `V[0xF] = 0`; the same `OP_Dxyn` run again returns the
framebuffer to all-off and, when the sprite has a set bit, sets
`V[0xF] = 1`. -/
theorem draw_twice (s : Chip8) (x y n I xPos yPos : Nat)
    (hx : fieldX s.opcode = x) (hy : fieldY s.opcode = y) (hn : s.opcode &&& 0x000F = n)
    (hxF : x ≠ 0xF) (hyF : y ≠ 0xF)
    (hxPos : s.registers x % 64 = xPos) (hyPos : s.registers y % 32 = yPos)
    (hI : s.index = I) (hmem : I + n ≤ 4096)
    (hfitx : xPos + 8 ≤ 64) (hfity : yPos + n ≤ 32)
    (hoff : ∀ c, c < 64 * 32 → s.video c = 0) (hVF : s.registers 0xF = 0) :
    ∃ s1 s2, OP_Dxyn s = some s1 ∧ OP_Dxyn s1 = some s2 ∧
      (∀ row col, row < n → col < 8 →
        s1.video ((yPos + row) * 64 + (xPos + col)) =
          if spriteBit (s.memory (I + row)) col then 0xFFFFFFFF else 0) ∧
      (∀ c, c < 64 * 32 →
        (¬∃ row col, row < n ∧ col < 8 ∧ c = (yPos + row) * 64 + (xPos + col)) →
        s1.video c = 0) ∧
      s1.registers 0xF = 0 ∧
      (∀ c, c < 64 * 32 → s2.video c = 0) ∧
      ((∃ row col, row < n ∧ col < 8 ∧ spriteBit (s.memory (I + row)) col) →
        s2.registers 0xF = 1) := by
  subst hx hy hn hI hxPos hyPos
  have hcell : ∀ row col, row < s.opcode &&& 0x000F → col < 8 →
      cellOf (s.registers (fieldX s.opcode) % 64) (s.registers (fieldY s.opcode) % 32)
        row col < 64 * 32 := by
    intro row col hr hc
    unfold cellOf VIDEO_WIDTH
    omega
  have hplot : ∀ c, plotted s.memory s.index (s.registers (fieldX s.opcode) % 64)
      (s.registers (fieldY s.opcode) % 32) (8 * (s.opcode &&& 0x000F)) c → c < 64 * 32 := by
    intro c hc
    obtain ⟨row, col, hr, hk, _, hcc⟩ := (plotted_all _ _ _ _ _ _).mp hc
    rw [hcc]
    exact hcell row col hr hk
  obtain ⟨s1, hrun1, hd1⟩ := OP_Dxyn_result s hmem
    (fun row col hr hc => Nat.le_of_lt (hcell row col hr hc))
    (fun row col hr hc _ => hcell row col hr hc)
  have hd1' : Drawn s (s.registers (fieldX s.opcode) % 64) (s.registers (fieldY s.opcode) % 32)
      (8 * (s.opcode &&& 0x000F)) s1 := hd1
  have hon1 : ∀ c, plotted s.memory s.index (s.registers (fieldX s.opcode) % 64)
      (s.registers (fieldY s.opcode) % 32) (8 * (s.opcode &&& 0x000F)) c →
      s1.video c = 0xFFFFFFFF := by
    intro c hc
    rw [hd1'.flipped c hc, hoff c (hplot c hc)]
    decide
  have hoff1 : ∀ c, c < 64 * 32 →
      ¬plotted s.memory s.index (s.registers (fieldX s.opcode) % 64)
        (s.registers (fieldY s.opcode) % 32) (8 * (s.opcode &&& 0x000F)) c →
      s1.video c = 0 := by
    intro c hc hnp
    rw [hd1'.kept c hnp]
    exact hoff c hc
  have hVF1 : s1.registers 0xF = 0 := by
    refine (hd1'.miss ?_).trans hVF
    rintro ⟨c, hc, hcon⟩
    rw [hoff c (hplot c hc)] at hcon
    exact absurd hcon (by decide)
  have hop1 : s1.opcode = s.opcode := hd1'.opcode_eq
  have hmem1 : s1.memory = s.memory := hd1'.memory_eq
  have hidx1 : s1.index = s.index := hd1'.index_eq
  have hx1 : s1.registers (fieldX s.opcode) = s.registers (fieldX s.opcode) :=
    hd1'.regs _ hxF
  have hy1 : s1.registers (fieldY s.opcode) = s.registers (fieldY s.opcode) :=
    hd1'.regs _ hyF
  obtain ⟨s2, hrun2, hd2⟩ := OP_Dxyn_result s1
    (by rw [hidx1, hop1]; exact hmem)
    (by
      intro row col hr hc
      rw [hop1] at hr
      rw [hop1, hx1, hy1]
      exact Nat.le_of_lt (hcell row col hr hc))
    (by
      intro row col hr hc _
      rw [hop1] at hr
      rw [hop1, hx1, hy1]
      exact hcell row col hr hc)
  have hd2' : Drawn s1 (s.registers (fieldX s.opcode) % 64)
      (s.registers (fieldY s.opcode) % 32) (8 * (s.opcode &&& 0x000F)) s2 := by
    have h := hd2
    rw [hop1, hx1, hy1] at h
    exact h
  have hflip2 := hd2'.flipped
  have hkept2 := hd2'.kept
  have hhit2 := hd2'.hit
  rw [hmem1, hidx1] at hflip2 hkept2 hhit2
  refine ⟨s1, s2, hrun1, hrun2, ?_, ?_, hVF1, ?_, ?_⟩
  · intro row col hr hc
    show s1.video (cellOf (s.registers (fieldX s.opcode) % 64)
      (s.registers (fieldY s.opcode) % 32) row col) = _
    by_cases hbit : spriteBit (s.memory (s.index + row)) col
    · rw [if_pos hbit]
      exact hon1 _ ((plotted_all _ _ _ _ _ _).mpr ⟨row, col, hr, hc, hbit, rfl⟩)
    · rw [if_neg hbit]
      refine hoff1 _ (hcell row col hr hc) ?_
      intro hp
      obtain ⟨r, k, _, hk, hb, hcc⟩ := (plotted_all _ _ _ _ _ _).mp hp
      unfold cellOf VIDEO_WIDTH at hcc
      have hrk : r = row ∧ k = col := by omega
      rw [hrk.1, hrk.2] at hb
      exact hbit hb
  · intro c hc hout
    refine hoff1 c hc ?_
    intro hp
    obtain ⟨r, k, hr, hk, _, hcc⟩ := (plotted_all _ _ _ _ _ _).mp hp
    exact hout ⟨r, k, hr, hk, hcc⟩
  · intro c hc
    by_cases hp : plotted s.memory s.index (s.registers (fieldX s.opcode) % 64)
        (s.registers (fieldY s.opcode) % 32) (8 * (s.opcode &&& 0x000F)) c
    · rw [hflip2 c hp, hon1 c hp]
      decide
    · rw [hkept2 c hp]
      exact hoff1 c hc hp
  · rintro ⟨row, col, hr, hc, hbit⟩
    have hp := (plotted_all s.memory s.index (s.registers (fieldX s.opcode) % 64)
      (s.registers (fieldY s.opcode) % 32) (s.opcode &&& 0x000F) _).mpr
      ⟨row, col, hr, hc, hbit, rfl⟩
    exact hhit2 ⟨_, hp, hon1 _ hp⟩

/-- Scenario of C12: the one-row sprite `0x80` drawn at `(0, 0)` twice.  The
first draw turns cell 0 on with the flag unset, the second turns it off and
sets the flag. -/
theorem draw_twice_witness :
    ∃ s1 s2, OP_Dxyn (drawState 0 0 0x80) = some s1 ∧ OP_Dxyn s1 = some s2 ∧
      s1.video 0 = 0xFFFFFFFF ∧ s1.registers 0xF = 0 ∧
      s2.video 0 = 0 ∧ s2.registers 0xF = 1 := by
  obtain ⟨s1, s2, hrun1, hrun2, hon, _, hVF1, hoff2, hVF2⟩ :=
    draw_twice (drawState 0 0 0x80) 0 1 1 0x300 0 0 (by decide) (by decide) (by decide)
      (by decide) (by decide) (by decide) (by decide) (by decide) (by decide) (by decide)
      (by decide) (fun _ _ => rfl) (by decide)
  exact ⟨s1, s2, hrun1, hrun2, hon 0 0 (by decide) (by decide), hVF1,
    hoff2 0 (by decide), hVF2 ⟨0, 0, by decide, by decide, by decide⟩⟩


/-- C13, as the claim states it, fails: with `V0 = 63` (start column 63,
greater than 56), `V1 = 0` and the one-row sprite `0x40` (only the bit at
column offset 1 set, so `xPos + col = 64`), `OP_Dxyn` does change a
framebuffer cell: cell 64, which is column 0 of row 1, goes from off to on. -/
theorem draw_past_edge_not_dropped :
    (drawState 63 0 0x40).registers (fieldX (drawState 63 0 0x40).opcode) % 64 = 63 ∧
    spriteBit ((drawState 63 0 0x40).memory (drawState 63 0 0x40).index) 1 ∧
    (drawState 63 0 0x40).video (1 * 64 + 0) = 0 ∧
    ∃ s', OP_Dxyn (drawState 63 0 0x40) = some s' ∧ s'.video (1 * 64 + 0) = 0xFFFFFFFF :=
  ⟨by decide, by decide, by decide, _, rfl, rfl⟩

/-- C13, amended: in a draw whose sprite rows lie inside memory, whose pixels
all have a cell index the framebuffer array can address (at most `64 * 32`)
and whose set sprite bits all have their cell inside the array, a set sprite
bit at column offset `col` with `xPos + col ≥ 64` is plotted at the linear
index `(yPos + row) * 64 + (xPos + col)`: the cell in column
`xPos + col - 64` of row `yPos + row + 1` is inverted. -/
theorem draw_past_edge_next_row (s : Chip8) (x y n I xPos yPos row col : Nat)
    (hx : fieldX s.opcode = x) (hy : fieldY s.opcode = y) (hn : s.opcode &&& 0x000F = n)
    (hxPos : s.registers x % 64 = xPos) (hyPos : s.registers y % 32 = yPos)
    (hI : s.index = I) (hmem : I + n ≤ 4096)
    (hform : ∀ r k, r < n → k < 8 → (yPos + r) * 64 + (xPos + k) ≤ 64 * 32)
    (hin : ∀ r k, r < n → k < 8 → spriteBit (s.memory (I + r)) k →
      (yPos + r) * 64 + (xPos + k) < 64 * 32)
    (hrow : row < n) (hcol : col < 8) (hbit : spriteBit (s.memory (I + row)) col)
    (hedge : xPos + col ≥ 64) :
    ∃ s', OP_Dxyn s = some s' ∧
      s'.video ((yPos + row + 1) * 64 + (xPos + col - 64)) =
        (s.video ((yPos + row + 1) * 64 + (xPos + col - 64)) ^^^ 0xFFFFFFFF) % 4294967296 := by
  subst hx hy hn hI hxPos hyPos
  obtain ⟨s', hrun, hd⟩ := OP_Dxyn_result s hmem hform hin
  have hd' : Drawn s (s.registers (fieldX s.opcode) % 64) (s.registers (fieldY s.opcode) % 32)
      (8 * (s.opcode &&& 0x000F)) s' := hd
  have hc : (s.registers (fieldY s.opcode) % 32 + row + 1) * 64 +
      (s.registers (fieldX s.opcode) % 64 + col - 64) =
      cellOf (s.registers (fieldX s.opcode) % 64) (s.registers (fieldY s.opcode) % 32)
        row col := by
    unfold cellOf VIDEO_WIDTH
    omega
  rw [hc]
  exact ⟨s', hrun, hd'.flipped _ ((plotted_all _ _ _ _ _ _).mpr ⟨row, col, hrow, hcol, hbit, rfl⟩)⟩

/-- C13 (amended) exercised on the state of the counterexample: the bit at
column offset 1 of the sprite `0x40` drawn from column 63 of row 0 inverts
cell 64. -/
theorem draw_past_edge_next_row_witness :
    ∃ s', OP_Dxyn (drawState 63 0 0x40) = some s' ∧
      s'.video ((0 + 0 + 1) * 64 + (63 + 1 - 64)) =
        ((drawState 63 0 0x40).video ((0 + 0 + 1) * 64 + (63 + 1 - 64)) ^^^ 0xFFFFFFFF)
          % 4294967296 :=
  draw_past_edge_next_row (drawState 63 0 0x40) 0 1 1 0x300 63 0 0 1
    (by decide) (by decide) (by decide) (by decide) (by decide) (by decide) (by decide)
    (by
      intro r k hr hk
      omega)
    (by
      intro r k hr hk _
      omega)
    (by decide) (by decide) (by decide) (by decide)

/-! ## Shifts -/

/-- C22: shifts (`OP_8xy6`, `OP_8xyE`).  For a destination `x ≠ 0xF` holding
the byte `a`, shift-right leaves `V[0xF] = a mod 2` and `V[x] = a / 2`, and
shift-left leaves `V[0xF] = a / 128` and `V[x] = (2 * a) mod 256`.  The
operand `y` plays no part: no register other than `V[x]` and `V[0xF]` is
written, and two states with the same registers and the same `x` give the
same registers whatever their `y` fields are. -/
theorem shifts (s : Chip8) (x a : Nat)
    (hx : fieldX s.opcode = x) (hxF : x ≠ 0xF) (ha : s.registers x = a) (ha8 : a < 256) :
    (OP_8xy6 s).registers 0xF = a % 2 ∧ (OP_8xy6 s).registers x = a / 2 ∧
    (OP_8xyE s).registers 0xF = a / 128 ∧ (OP_8xyE s).registers x = (2 * a) % 256 ∧
    (∀ i, i ≠ x → i ≠ 0xF →
      (OP_8xy6 s).registers i = s.registers i ∧ (OP_8xyE s).registers i = s.registers i) ∧
    (∀ t : Chip8, t.registers = s.registers → fieldX t.opcode = x →
      (OP_8xy6 t).registers = (OP_8xy6 s).registers ∧
      (OP_8xyE t).registers = (OP_8xyE s).registers) := by
  have hFx : (0xF : Nat) ≠ x := Ne.symm hxF
  have hlow : a &&& 0x1 = a % 2 := Nat.and_pow_two_sub_one_eq_mod a 1
  have htop : (a &&& 0x80) >>> 7 = a / 128 := by
    have h := and_shift_bit a 7
    have h128 : (1 <<< 7 : Nat) = 0x80 := by decide
    rw [h128] at h
    rw [h]
    omega
  have hxv : store s.registers 0xF (a % 2) x = a := by
    rw [store_other _ _ _ _ hxF, ha]
  have hxv' : store s.registers 0xF (a / 128) x = a := by
    rw [store_other _ _ _ _ hxF, ha]
  refine ⟨?_, ?_, ?_, ?_, ?_, ?_⟩
  · simp only [OP_8xy6, hx, ha, Vf, hlow]
    rw [store_other _ _ _ _ hFx, store_same]
  · simp only [OP_8xy6, hx, ha, Vf, hlow, store_same, hxv]
    exact Nat.shiftRight_eq_div_pow a 1
  · simp only [OP_8xyE, hx, ha, Vf, htop]
    rw [store_other _ _ _ _ hFx, store_same]
  · simp only [OP_8xyE, hx, ha, Vf, htop, store_same, hxv']
    rw [Nat.shiftLeft_eq]
    omega
  · intro i hix hiF
    constructor
    · simp only [OP_8xy6, hx, Vf]
      rw [store_other _ _ _ _ hix, store_other _ _ _ _ hiF]
    · simp only [OP_8xyE, hx, Vf]
      rw [store_other _ _ _ _ hix, store_other _ _ _ _ hiF]
  · intro t htr htx
    constructor
    · simp only [OP_8xy6, hx, htx, htr]
    · simp only [OP_8xyE, hx, htx, htr]

/-- C22 exercised on `V0 = 0x81`, `x = 0`, `y = 1`: shift-right gives
`VF = 1`, `V0 = 0x40`; shift-left gives `VF = 1`, `V0 = 0x02`. -/
theorem shifts_witness :
    (OP_8xy6 (regState 0x81 0x55 0x8016)).registers 0xF = 1 ∧
    (OP_8xy6 (regState 0x81 0x55 0x8016)).registers 0 = 0x40 ∧
    (OP_8xyE (regState 0x81 0x55 0x8016)).registers 0xF = 1 ∧
    (OP_8xyE (regState 0x81 0x55 0x8016)).registers 0 = 0x02 ∧
    (OP_8xy6 (regState 0x81 0x55 0x8016)).registers 1 = 0x55 := by
  have h := shifts (regState 0x81 0x55 0x8016) 0 0x81 (by decide) (by decide) (by decide)
    (by decide)
  exact ⟨h.1, h.2.1, h.2.2.1, h.2.2.2.1, (h.2.2.2.2.1 1 (by decide) (by decide)).1⟩


/-! ## Timer set and read back -/

/-- One cycle on an instruction of family `F` whose low byte `lo` has the
handler `f` in `tableF`: `f` runs on the fetched state and the timers tick. -/
theorem Cycle_familyF (r : Nat) (s : Chip8) (x lo : Nat) (f : Chip8Func)
    (hx : x < 16) (hlo8 : lo < 256) (hpc : s.pc + 1 < 4096)
    (hhi : s.memory s.pc = 0xF0 + x) (hlo : s.memory (s.pc + 1) = lo)
    (hslot : tableF lo = some f) :
    fieldX ((0xF0 + x) * 256 + lo) = x ∧
    Cycle r s = (f { s with opcode := (0xF0 + x) * 256 + lo, pc := s.pc + 2 }).map tick := by
  have hstep := Cycle_fetch r s _ _ hpc hhi hlo (by omega) hlo8
  have hnib : (0xF0 + x) / 16 = 0xF := by omega
  have htab : table r 0xF = some TableF := rfl
  have hbyte : ((0xF0 + x) * 256 + lo) &&& 0x00FF = lo := by rw [lowByte_eq]; omega
  rw [hnib, htab] at hstep
  simp only [invoke, TableF, hbyte, hslot] at hstep
  refine ⟨?_, hstep⟩
  rw [fieldX_eq]; omega

/-- C24: timer set and tick in the same cycle.  With `v = V[x]`, one cycle
executing `Fx15` leaves the delay timer at `v - 1` if `v > 0` and at 0 if
`v = 0`; one cycle executing `Fx18` does the same to the sound timer; and
when `Fx15` at `pc` is followed by `Fy07` at `pc + 2`, the second cycle
leaves that value, `v - 1` for `v > 0`, in `V[y]`. -/
theorem timer_set_then_tick (r1 r2 : Nat) (s : Chip8) (x y v : Nat)
    (hx : x < 16) (hy : y < 16) (hpc : s.pc + 1 < 4096)
    (hhi : s.memory s.pc = 0xF0 + x) (hv : s.registers x = v) :
    (s.memory (s.pc + 1) = 0x15 →
      ∃ s', Cycle r1 s = some s' ∧ s'.delayTimer = (if v > 0 then v - 1 else 0)) ∧
    (s.memory (s.pc + 1) = 0x18 →
      ∃ s', Cycle r1 s = some s' ∧ s'.soundTimer = (if v > 0 then v - 1 else 0)) ∧
    (s.memory (s.pc + 1) = 0x15 → s.pc + 3 < 4096 →
      s.memory (s.pc + 2) = 0xF0 + y → s.memory (s.pc + 3) = 0x07 →
      ∃ s1 s2, Cycle r1 s = some s1 ∧ Cycle r2 s1 = some s2 ∧
        s2.registers y = (if v > 0 then v - 1 else 0)) := by
  have hset : s.memory (s.pc + 1) = 0x15 →
      Cycle r1 s = some (tick (OP_Fx15
        { s with opcode := (0xF0 + x) * 256 + 0x15, pc := s.pc + 2 })) ∧
      (tick (OP_Fx15 { s with opcode := (0xF0 + x) * 256 + 0x15, pc := s.pc + 2 })).delayTimer
        = (if v > 0 then v - 1 else 0) := by
    intro hlo
    obtain ⟨hfx, hstep⟩ := Cycle_familyF r1 s x 0x15 (total OP_Fx15) hx (by omega) hpc hhi hlo rfl
    refine ⟨hstep, ?_⟩
    rw [tick_delayTimer]
    simp only [OP_Fx15, hfx, hv]
    split_ifs <;> omega
  refine ⟨fun hlo => ⟨_, hset hlo⟩, ?_, ?_⟩
  · intro hlo
    obtain ⟨hfx, hstep⟩ := Cycle_familyF r1 s x 0x18 (total OP_Fx18) hx (by omega) hpc hhi hlo rfl
    refine ⟨_, hstep, ?_⟩
    show (tick (OP_Fx18 _)).soundTimer = _
    rw [tick_soundTimer]
    simp only [OP_Fx18, hfx, hv]
    split_ifs <;> omega
  · intro hlo hpc3 hhi2 hlo2
    obtain ⟨hrun1, htimer⟩ := hset hlo
    obtain ⟨hfy, hstep2⟩ := Cycle_familyF r2
      (tick (OP_Fx15 { s with opcode := (0xF0 + x) * 256 + 0x15, pc := s.pc + 2 }))
      y 0x07 (total OP_Fx07) hy (by omega)
      (by rw [tick_pc]; exact hpc3)
      (by rw [tick_pc, tick_memory]; exact hhi2)
      (by rw [tick_pc, tick_memory]; exact hlo2) rfl
    refine ⟨_, _, hrun1, hstep2, ?_⟩
    show (tick (OP_Fx07 _)).registers y = _
    rw [tick_registers]
    simp only [OP_Fx07, hfy, store_same]
    exact htimer

/-- C24 exercised on `F015` at `0x200` and `F107` at `0x202` with `V0 = 5`:
the delay timer is 4 after the first cycle and `V1 = 4` after the second. -/
theorem timer_set_then_tick_witness :
    (∃ s', Cycle 0 { prog2State 0xF0 0x15 0xF1 0x07 with
          registers := store blank.registers 0 5 } = some s' ∧ s'.delayTimer = 4) ∧
    (∃ s1 s2, Cycle 0 { prog2State 0xF0 0x15 0xF1 0x07 with
          registers := store blank.registers 0 5 } = some s1 ∧
        Cycle 0 s1 = some s2 ∧ s2.registers 1 = 4) := by
  have h := timer_set_then_tick 0 0
    { prog2State 0xF0 0x15 0xF1 0x07 with registers := store blank.registers 0 5 } 0 1 5
    (by decide) (by decide) (by decide) (by decide) (by decide)
  exact ⟨h.1 (by decide), h.2.2 (by decide) (by decide) (by decide) (by decide)⟩


/-! ## The collision flag of the draw instruction -/

/-- When the loops of `OP_Dxyn` reach the pixel `(row, col)`, its cell still
holds what it held before the draw: no earlier pixel has the same cell. -/
theorem cell_at_plot_time (s t : Chip8) (xPos yPos row col : Nat) (hcol : col < 8)
    (hinv : Drawn s xPos yPos (8 * row + col) t) :
    t.video (cellOf xPos yPos row col) = s.video (cellOf xPos yPos row col) :=
  hinv.kept _ (plotted_fresh s.memory s.index xPos yPos row col hcol)

/-- C23: the collision flag is only asserted.  For a draw (`OP_Dxyn`) of `n`
rows at `(xPos, yPos)` that is in bounds (the sprite rows lie inside memory,
every pixel has a cell index the framebuffer array can address and every set
sprite bit has its cell inside the array), the handler
ends with `V[0xF] = 1` if some set sprite bit landed on a cell that was fully
on (`0xFFFFFFFF`; by `cell_at_plot_time` the cell holds its value from before
the draw at the moment it is plotted), and otherwise with `V[0xF]` at its
value before the draw. -/
theorem draw_collision_flag (s : Chip8) (x y n I xPos yPos : Nat)
    (hx : fieldX s.opcode = x) (hy : fieldY s.opcode = y) (hn : s.opcode &&& 0x000F = n)
    (hxPos : s.registers x % 64 = xPos) (hyPos : s.registers y % 32 = yPos)
    (hI : s.index = I) (hmem : I + n ≤ 4096)
    (hform : ∀ row col, row < n → col < 8 → (yPos + row) * 64 + (xPos + col) ≤ 64 * 32)
    (hin : ∀ row col, row < n → col < 8 → spriteBit (s.memory (I + row)) col →
      (yPos + row) * 64 + (xPos + col) < 64 * 32) :
    ∃ s', OP_Dxyn s = some s' ∧
      ((∃ row col, row < n ∧ col < 8 ∧ spriteBit (s.memory (I + row)) col ∧
          s.video ((yPos + row) * 64 + (xPos + col)) = 0xFFFFFFFF) →
        s'.registers 0xF = 1) ∧
      ((¬∃ row col, row < n ∧ col < 8 ∧ spriteBit (s.memory (I + row)) col ∧
          s.video ((yPos + row) * 64 + (xPos + col)) = 0xFFFFFFFF) →
        s'.registers 0xF = s.registers 0xF) := by
  subst hx hy hn hI hxPos hyPos
  obtain ⟨s', hrun, hd⟩ := OP_Dxyn_result s hmem hform hin
  have hd' : Drawn s (s.registers (fieldX s.opcode) % 64) (s.registers (fieldY s.opcode) % 32)
      (8 * (s.opcode &&& 0x000F)) s' := hd
  refine ⟨s', hrun, ?_, ?_⟩
  · rintro ⟨row, col, hr, hc, hbit, hon⟩
    exact hd'.hit ⟨_, (plotted_all _ _ _ _ _ _).mpr ⟨row, col, hr, hc, hbit, rfl⟩, hon⟩
  · intro hno
    refine hd'.miss ?_
    rintro ⟨c, hp, hon⟩
    obtain ⟨row, col, hr, hc, hbit, hcc⟩ := (plotted_all _ _ _ _ _ _).mp hp
    rw [hcc] at hon
    exact hno ⟨row, col, hr, hc, hbit, hon⟩

/-- C23 exercised on the sprite `0x80` drawn at `(0, 0)`: with cell 0 off
and `VF = 7` before the draw the flag stays 7; with cell 0 fully on it
becomes 1. -/
theorem draw_collision_flag_witness :
    (∃ s', OP_Dxyn { drawState 0 0 0x80 with
          registers := store blank.registers 0xF 7 } = some s' ∧ s'.registers 0xF = 7) ∧
    (∃ s', OP_Dxyn { drawState 0 0 0x80 with
          registers := store blank.registers 0xF 7,
          video := store blank.video 0 0xFFFFFFFF } = some s' ∧ s'.registers 0xF = 1) := by
  obtain ⟨s1, hrun1, _, hmiss⟩ := draw_collision_flag
    { drawState 0 0 0x80 with registers := store blank.registers 0xF 7 } 0 1 1 0x300 0 0
    (by decide) (by decide) (by decide) (by decide) (by decide) (by decide) (by decide)
    (by intro row col hr hc; omega) (by intro row col hr hc _; omega)
  obtain ⟨s2, hrun2, hhit, _⟩ := draw_collision_flag
    { drawState 0 0 0x80 with registers := store blank.registers 0xF 7,
                              video := store blank.video 0 0xFFFFFFFF } 0 1 1 0x300 0 0
    (by decide) (by decide) (by decide) (by decide) (by decide) (by decide) (by decide)
    (by intro row col hr hc; omega) (by intro row col hr hc _; omega)
  refine ⟨⟨s1, hrun1, ?_⟩, ⟨s2, hrun2, ?_⟩⟩
  · refine hmiss ?_
    rintro ⟨row, col, hr, hc, _, hon⟩
    have hrow : row = 0 := by omega
    subst hrow
    interval_cases col <;> exact absurd hon (by decide)
  · exact hhit ⟨0, 0, by decide, by decide, by decide, by decide⟩

/-! ## Which cycles keep their array accesses in bounds -/

/-- A loop that has a result passed the guard of every iteration: when each
iteration that succeeds from a state satisfying `Inv` establishes `G` for its
index and carries `Inv` on, `G` holds for all indices of the loop. -/
theorem forLoop_guard (Inv : Nat → Chip8 → Prop) (G : Nat → Prop)
    (body : Nat → Chip8 → Option Chip8)
    (hInv : ∀ j t t', Inv j t → body j t = some t' → Inv (j + 1) t')
    (hG : ∀ j t t', Inv j t → body j t = some t' → G j) :
    ∀ (k i : Nat) (s s' : Chip8), Inv i s → forLoop k i body s = some s' →
      ∀ j, i ≤ j → j < i + k → G j := by
  intro k
  induction k with
  | zero =>
    intro i s s' _ _ j h1 h2
    omega
  | succ k ih =>
    intro i s s' h0 h j h1 h2
    simp only [forLoop] at h
    cases hb : body i s with
    | none => rw [hb] at h; exact absurd h (by simp)
    | some t =>
      rw [hb] at h
      by_cases hji : j = i
      · rw [hji]
        exact hG i s t h0 hb
      · exact ih (i + 1) t s' (hInv i s t h0 hb) h j (by omega) (by omega)

theorem OP_00EE_defined (s : Chip8) (hsp : s.sp < 256) :
    (∃ s', OP_00EE s = some s') ↔ 1 ≤ s.sp ∧ s.sp ≤ 16 := by
  unfold OP_00EE
  dsimp only
  have hconv : toU8 ((s.sp : Int) - 1) < 16 ↔ 1 ≤ s.sp ∧ s.sp ≤ 16 := by
    unfold toU8
    omega
  constructor
  · rintro ⟨s', h⟩
    by_contra hno
    rw [if_neg (fun hlt => hno (hconv.mp hlt))] at h
    exact absurd h (by simp)
  · intro h
    exact ⟨_, if_pos (hconv.mpr h)⟩

theorem OP_2nnn_defined (s : Chip8) : (∃ s', OP_2nnn s = some s') ↔ s.sp < 16 := by
  unfold OP_2nnn
  dsimp only
  constructor
  · rintro ⟨s', h⟩
    by_contra hno
    rw [if_neg hno] at h
    exact absurd h (by simp)
  · intro h
    exact ⟨_, if_pos h⟩

theorem OP_Ex9E_defined (s : Chip8) :
    (∃ s', OP_Ex9E s = some s') ↔ s.registers (fieldX s.opcode) < 16 := by
  unfold OP_Ex9E
  dsimp only
  constructor
  · rintro ⟨s', h⟩
    by_contra hno
    rw [if_neg hno] at h
    exact absurd h (by simp)
  · intro h
    exact ⟨_, if_pos h⟩

theorem OP_ExA1_defined (s : Chip8) :
    (∃ s', OP_ExA1 s = some s') ↔ s.registers (fieldX s.opcode) < 16 := by
  unfold OP_ExA1
  dsimp only
  constructor
  · rintro ⟨s', h⟩
    by_contra hno
    rw [if_neg hno] at h
    exact absurd h (by simp)
  · intro h
    exact ⟨_, if_pos h⟩

theorem OP_Fx33_defined (s : Chip8) : (∃ s', OP_Fx33 s = some s') ↔ s.index + 2 < 4096 := by
  unfold OP_Fx33
  dsimp only
  constructor
  · rintro ⟨s', h⟩
    by_contra hno
    rw [if_neg hno] at h
    exact absurd h (by simp)
  · intro h
    exact ⟨_, if_pos h⟩

theorem OP_Fx55_defined (s : Chip8) :
    (∃ s', OP_Fx55 s = some s') ↔ s.index + fieldX s.opcode < 4096 := by
  constructor
  · rintro ⟨s', h⟩
    refine forLoop_guard (fun _ t => t.index = s.index) (fun j => s.index + j < 4096) _
      ?_ ?_ _ _ s s' rfl h (fieldX s.opcode) (by omega) (by omega)
    · intro j t t' hinv hb
      split_ifs at hb
      simp only [Option.some.injEq] at hb
      rw [← hb]
      exact hinv
    · intro j t t' hinv hb
      split_ifs at hb with hlt
      rw [← hinv]
      exact hlt
  · intro h
    exact ⟨_, OP_Fx55_result s (by omega)⟩

theorem OP_Fx65_defined (s : Chip8) :
    (∃ s', OP_Fx65 s = some s') ↔ s.index + fieldX s.opcode < 4096 := by
  constructor
  · rintro ⟨s', h⟩
    refine forLoop_guard (fun _ t => t.index = s.index) (fun j => s.index + j < 4096) _
      ?_ ?_ _ _ s s' rfl h (fieldX s.opcode) (by omega) (by omega)
    · intro j t t' hinv hb
      split_ifs at hb
      simp only [Option.some.injEq] at hb
      rw [← hb]
      exact hinv
    · intro j t t' hinv hb
      split_ifs at hb with hlt
      rw [← hinv]
      exact hlt
  · intro h
    exact ⟨_, OP_Fx65_result s (by omega)⟩


theorem drawPixel_keeps_sprite (xPos yPos row b col : Nat) (t t' : Chip8)
    (h : drawPixel xPos yPos row b col t = some t') :
    (t'.memory, t'.index) = (t.memory, t.index) := by
  unfold drawPixel at h
  dsimp only at h
  split_ifs at h <;> (simp only [Option.some.injEq] at h; subst h; rfl)

theorem drawPixel_guard (xPos yPos row b col : Nat) (t t' : Chip8)
    (h : drawPixel xPos yPos row b col t = some t') :
    PixelInBounds b xPos yPos row col := by
  unfold drawPixel at h
  dsimp only at h
  constructor
  · by_contra hno
    have hno' : ¬(yPos + row) * VIDEO_WIDTH + (xPos + col) ≤ VIDEO_WIDTH * VIDEO_HEIGHT := hno
    rw [if_neg hno'] at h
    exact absurd h (by simp)
  · intro hbit
    have hbit' : b &&& (0x80 >>> col) ≠ 0 := hbit
    by_contra hno
    have hno' : ¬(yPos + row) * VIDEO_WIDTH + (xPos + col) < VIDEO_WIDTH * VIDEO_HEIGHT := hno
    rw [if_pos hbit', if_neg hno'] at h
    split_ifs at h

/-- A draw whose set bits all land inside the framebuffer can still leave
the array: from column 60 of row 31 the sprite `0xF0` has its four unset
pixels at the cell indices `2048 .. 2051`, and `OP_Dxyn` forms the address of
each of them. -/
theorem OP_Dxyn_unset_pixel_past_array : OP_Dxyn (drawState 60 31 0xF0) = none := rfl

theorem drawRow_keeps_sprite (xPos yPos row : Nat) (t t' : Chip8)
    (h : drawRow xPos yPos row t = some t') :
    (t'.memory, t'.index) = (t.memory, t.index) := by
  unfold drawRow at h
  dsimp only at h
  split_ifs at h
  exact forLoop_preserves (fun u => (u.memory, u.index)) _
    (drawPixel_keeps_sprite _ _ _ _) _ _ t t' h

theorem drawRow_guard (xPos yPos row : Nat) (t t' : Chip8)
    (h : drawRow xPos yPos row t = some t') :
    t.index + row < 4096 ∧
      ∀ col, col < 8 → PixelInBounds (t.memory (t.index + row)) xPos yPos row col := by
  unfold drawRow at h
  dsimp only at h
  split_ifs at h with hlt
  refine ⟨hlt, fun col hcol => ?_⟩
  exact forLoop_guard (fun _ _ => True)
    (fun col => PixelInBounds (t.memory (t.index + row)) xPos yPos row col)
    _ (fun _ _ _ _ _ => trivial) (fun j u u' _ hb => drawPixel_guard _ _ _ _ j u u' hb)
    _ _ t t' trivial h col (by omega) (by omega)

/-- `OP_Dxyn` has a result exactly when every sprite row it reads lies inside
`memory` and every pixel of the sprite is in bounds for `video`. -/
theorem OP_Dxyn_defined (s : Chip8) :
    (∃ s', OP_Dxyn s = some s') ↔
      ∀ row, row < s.opcode &&& 0x000F →
        s.index + row < 4096 ∧
        ∀ col, col < 8 →
          PixelInBounds (s.memory (s.index + row))
            (s.registers (fieldX s.opcode) % VIDEO_WIDTH)
            (s.registers (fieldY s.opcode) % VIDEO_HEIGHT) row col := by
  constructor
  · rintro ⟨s', h⟩ row hrow
    refine forLoop_guard (fun _ t => (t.memory, t.index) = (s.memory, s.index))
      (fun row => s.index + row < 4096 ∧
        ∀ col, col < 8 →
          PixelInBounds (s.memory (s.index + row))
            (s.registers (fieldX s.opcode) % VIDEO_WIDTH)
            (s.registers (fieldY s.opcode) % VIDEO_HEIGHT) row col)
      _ ?_ ?_ _ _ s s' rfl h row (by omega) (by omega)
    · intro j t t' hinv hb
      exact (drawRow_keeps_sprite _ _ j t t' hb).trans hinv
    · intro j t t' hinv hb
      have hm : t.memory = s.memory := congrArg Prod.fst hinv
      have hi : t.index = s.index := congrArg Prod.snd hinv
      have hg := drawRow_guard _ _ j t t' hb
      rw [hm, hi] at hg
      exact hg
  · intro h
    have hloop := forLoop_invariant
      (fun row u => Drawn s (s.registers (fieldX s.opcode) % VIDEO_WIDTH)
        (s.registers (fieldY s.opcode) % VIDEO_HEIGHT) (8 * row) u)
      (drawRow (s.registers (fieldX s.opcode) % VIDEO_WIDTH)
        (s.registers (fieldY s.opcode) % VIDEO_HEIGHT))
      (s.opcode &&& 0x000F) 0 s (Drawn.start s _ _)
      (fun j u _ hj hu => drawRow_step s u _ _ j hu (h j (by omega)).1
        (fun col hcol => ((h j (by omega)).2 col hcol).1)
        (fun col hcol => ((h j (by omega)).2 col hcol).2))
    obtain ⟨s', hrun, _⟩ := hloop
    exact ⟨s', hrun⟩

theorem Table0_defined (s : Chip8) (hsp : s.sp < 256) :
    (∃ s', Table0 s = some s') ↔
      s.opcode % 16 ≤ 0xE ∧ (s.opcode % 16 = 0xE → 1 ≤ s.sp ∧ s.sp ≤ 16) := by
  unfold Table0
  rw [lowNibble_eq]
  have hn := Nat.mod_lt s.opcode (by decide : 16 > 0)
  generalize s.opcode % 16 = n at hn ⊢
  interval_cases n <;> simp [table0, invoke, total, OP_00EE_defined s hsp]

theorem Table8_defined (s : Chip8) :
    (∃ s', Table8 s = some s') ↔ s.opcode % 16 ≤ 0xE := by
  unfold Table8
  rw [lowNibble_eq]
  have hn := Nat.mod_lt s.opcode (by decide : 16 > 0)
  generalize s.opcode % 16 = n at hn ⊢
  interval_cases n <;> simp [table8, invoke, total]

theorem TableE_defined (s : Chip8) :
    (∃ s', TableE s = some s') ↔
      s.opcode % 16 ≤ 0xE ∧
        (s.opcode % 16 = 0x1 ∨ s.opcode % 16 = 0xE → s.registers (fieldX s.opcode) < 16) := by
  unfold TableE
  rw [lowNibble_eq]
  have hn := Nat.mod_lt s.opcode (by decide : 16 > 0)
  generalize s.opcode % 16 = n at hn ⊢
  interval_cases n <;> simp [tableE, invoke, total, OP_Ex9E_defined, OP_ExA1_defined]

theorem TableF_defined (s : Chip8) :
    (∃ s', TableF s = some s') ↔
      s.opcode % 256 ≤ 0x65 ∧ (s.opcode % 256 = 0x33 → s.index + 2 < 4096) ∧
        (s.opcode % 256 = 0x55 ∨ s.opcode % 256 = 0x65 →
          s.index + fieldX s.opcode < 4096) := by
  unfold TableF
  rw [lowByte_eq]
  have hn := Nat.mod_lt s.opcode (by decide : 256 > 0)
  generalize s.opcode % 256 = b at hn ⊢
  by_cases hb : b ≤ 0x65
  · interval_cases b <;>
      simp [tableF, invoke, total, OP_Fx33_defined, OP_Fx55_defined, OP_Fx65_defined]
  · have hnone : tableF b = none := by
      unfold tableF
      repeat rw [if_neg (by omega)]
    rw [hnone]
    simp only [invoke]
    constructor
    · rintro ⟨s', h⟩
      exact absurd h (by simp)
    · intro h
      exact absurd h.1 hb

theorem HandlerInBounds_total (op : Nat) (s : Chip8)
    (h0 : op / 4096 ≠ 0x0) (h2 : op / 4096 ≠ 0x2)
    (hD : op / 4096 ≠ 0xD) (hE : op / 4096 ≠ 0xE) (hF : op / 4096 ≠ 0xF) :
    HandlerInBounds op s :=
  ⟨fun h => absurd h h0, fun h => absurd h h2, fun h => absurd h hD,
    fun h => absurd h hE, fun h => absurd h hF⟩

/-- When the secondary table has a slot for the current opcode, the handler
selected by it has a result exactly when `HandlerInBounds` holds. -/
theorem dispatch_defined (r : Nat) (s : Chip8) (hop : s.opcode < 65536) (hsp : s.sp < 256)
    (hslot : SlotInTable s.opcode) :
    (∃ s', invoke (table r (s.opcode / 4096)) s = some s') ↔ HandlerInBounds s.opcode s := by
  have hk : s.opcode / 4096 < 16 := by omega
  have hx : fieldX s.opcode = s.opcode / 256 % 16 := fieldX_eq _
  have hy : fieldY s.opcode = s.opcode / 16 % 16 := fieldY_eq _
  obtain ⟨k, hkdef⟩ : ∃ k, s.opcode / 4096 = k := ⟨_, rfl⟩
  rw [hkdef] at hk ⊢
  have htotal : ∀ f : Chip8 → Chip8,
      ((∃ s', invoke (some (total f)) s = some s') ↔ HandlerInBounds s.opcode s) ↔
        HandlerInBounds s.opcode s :=
    fun f => ⟨fun h => h.mp ⟨f s, rfl⟩, fun h => ⟨fun _ => h, fun _ => ⟨f s, rfl⟩⟩⟩
  have hnone : ∀ j, j ≠ 0x0 → j ≠ 0x2 → j ≠ 0xD → j ≠ 0xE → j ≠ 0xF →
      s.opcode / 4096 = j → HandlerInBounds s.opcode s :=
    fun j h0 h2 hD hE hF hj =>
      HandlerInBounds_total _ _ (hj ▸ h0) (hj ▸ h2) (hj ▸ hD) (hj ▸ hE) (hj ▸ hF)
  interval_cases k
  · rw [show table r 0 = some Table0 from rfl]
    show (∃ s', Table0 s = some s') ↔ _
    rw [Table0_defined s hsp]
    exact ⟨fun h => ⟨fun _ => h.2, by omega, by omega, by omega, by omega⟩,
      fun h => ⟨hslot.1 (Or.inl hkdef), h.1 hkdef⟩⟩
  · exact (htotal OP_1nnn).mpr (hnone 1 (by decide) (by decide) (by decide) (by decide)
      (by decide) hkdef)
  · rw [show table r 2 = some OP_2nnn from rfl]
    show (∃ s', OP_2nnn s = some s') ↔ _
    rw [OP_2nnn_defined]
    exact ⟨fun h => ⟨by omega, fun _ => h, by omega, by omega, by omega⟩,
      fun h => h.2.1 hkdef⟩
  · exact (htotal OP_3xkk).mpr (hnone 3 (by decide) (by decide) (by decide) (by decide)
      (by decide) hkdef)
  · exact (htotal OP_4xkk).mpr (hnone 4 (by decide) (by decide) (by decide) (by decide)
      (by decide) hkdef)
  · exact (htotal OP_5xy0).mpr (hnone 5 (by decide) (by decide) (by decide) (by decide)
      (by decide) hkdef)
  · exact (htotal OP_6xkk).mpr (hnone 6 (by decide) (by decide) (by decide) (by decide)
      (by decide) hkdef)
  · exact (htotal OP_7xkk).mpr (hnone 7 (by decide) (by decide) (by decide) (by decide)
      (by decide) hkdef)
  · rw [show table r 8 = some Table8 from rfl]
    show (∃ s', Table8 s = some s') ↔ _
    rw [Table8_defined]
    exact ⟨fun _ => hnone 8 (by decide) (by decide) (by decide) (by decide) (by decide) hkdef,
      fun _ => hslot.1 (Or.inr (Or.inl hkdef))⟩
  · exact (htotal OP_9xy0).mpr (hnone 9 (by decide) (by decide) (by decide) (by decide)
      (by decide) hkdef)
  · exact (htotal OP_Annn).mpr (hnone 10 (by decide) (by decide) (by decide) (by decide)
      (by decide) hkdef)
  · exact (htotal OP_Bnnn).mpr (hnone 11 (by decide) (by decide) (by decide) (by decide)
      (by decide) hkdef)
  · exact (htotal (OP_Cxkk r)).mpr (hnone 12 (by decide) (by decide) (by decide) (by decide)
      (by decide) hkdef)
  · rw [show table r 13 = some OP_Dxyn from rfl]
    show (∃ s', OP_Dxyn s = some s') ↔ _
    rw [OP_Dxyn_defined, lowNibble_eq, hx, hy]
    exact ⟨fun h => ⟨by omega, by omega, fun _ => h, by omega, by omega⟩,
      fun h => h.2.2.1 hkdef⟩
  · rw [show table r 14 = some TableE from rfl]
    show (∃ s', TableE s = some s') ↔ _
    rw [TableE_defined, hx]
    exact ⟨fun h => ⟨by omega, by omega, by omega, fun _ => h.2, by omega⟩,
      fun h => ⟨hslot.1 (Or.inr (Or.inr hkdef)), h.2.2.2.1 hkdef⟩⟩
  · rw [show table r 15 = some TableF from rfl]
    show (∃ s', TableF s = some s') ↔ _
    rw [TableF_defined, hx]
    exact ⟨fun h => ⟨by omega, by omega, by omega, by omega, fun _ => h.2⟩,
      fun h => ⟨hslot.2 hkdef, h.2.2.2.2 hkdef⟩⟩

/-- A cycle has a result exactly when its handler has one on the state with
the fetched word and the advanced program counter. -/
theorem Cycle_result_iff_handler (r : Nat) (s : Chip8)
    (hmem : ∀ a, s.memory a < 256) (hpc : s.pc + 1 < 4096) :
    (∃ s', Cycle r s = some s') ↔
      ∃ s2, invoke (table r (fetchWord s / 4096))
        { s with opcode := fetchWord s, pc := s.pc + 2 } = some s2 := by
  have h1 := hmem s.pc
  have h2 := hmem (s.pc + 1)
  have hdiv : fetchWord s / 4096 = s.memory s.pc / 16 := by
    unfold fetchWord
    omega
  rw [Cycle_fetch r s _ _ hpc rfl rfl h1 h2, hdiv]
  constructor
  · rintro ⟨s', h⟩
    obtain ⟨s2, hs2, _⟩ := Option.map_eq_some'.mp h
    exact ⟨s2, hs2⟩
  · rintro ⟨s2, hs2⟩
    exact ⟨tick s2, by rw [show fetchWord s = s.memory s.pc * 256 + s.memory (s.pc + 1) from rfl]
                       at hs2; rw [hs2]; rfl⟩

/-- In-bounds cycles have a result. -/
theorem Cycle_result_of_in_bounds (r : Nat) (s : Chip8)
    (hmem : ∀ a, s.memory a < 256) (hsp : s.sp < 256)
    (hslot : SlotInTable (fetchWord s)) (hin : InBounds s) :
    ∃ s', Cycle r s = some s' := by
  have hword : fetchWord s < 65536 := by
    have h1 := hmem s.pc
    have h2 := hmem (s.pc + 1)
    unfold fetchWord
    omega
  exact (Cycle_result_iff_handler r s hmem hin.1).mpr
    ((dispatch_defined r { s with opcode := fetchWord s, pc := s.pc + 2 } hword hsp hslot).mpr
      hin.2)

/-- C21, as the claim states it, fails on each of its own examples: a return
with `sp = 0`, a call with `sp = 16`, a fetch at `pc = 4095`, a key skip with
`V0 = 16`, and a two-row draw from row 31 each make `Cycle` index an array
outside its bounds, so the cycle has no defined result. -/
theorem Cycle_out_of_bounds :
    Cycle 0 (progState 0x00 0xEE) = none ∧
    Cycle 0 { progState 0x23 0x00 with sp := 16 } = none ∧
    Cycle 0 { blank with pc := 4095 } = none ∧
    Cycle 0 { progState 0xE0 0x9E with registers := store blank.registers 0 16 } = none ∧
    Cycle 0 { progState 0xD0 0x12 with
      registers := store blank.registers 1 31, index := 0x300,
      memory := store (store (progState 0xD0 0x12).memory 0x300 0x80) 0x301 0x80 } = none :=
  ⟨rfl, rfl, rfl, rfl, rfl⟩

/-- C21, amended: for a state whose memory cells are bytes and whose stack
pointer is a byte, and an instruction word at `pc` whose secondary field has
a slot in its dispatch table, one `Cycle` completes, with every access to
`memory`, `stack`, `keypad` and `video` inside the array, exactly when
`InBounds` holds: `pc ≤ 4094`, and the handler of the fetched word finds the
stack slot, keypad entry, memory range and framebuffer cells it uses inside
their arrays.  The resulting state is then determined by the state before and
the random byte. -/
theorem cycle_defined_iff (r : Nat) (s : Chip8)
    (hmem : ∀ a, s.memory a < 256) (hsp : s.sp < 256)
    (hslot : SlotInTable (fetchWord s)) :
    (∃ s', Cycle r s = some s') ↔ InBounds s := by
  constructor
  · rintro ⟨s', h⟩
    have hpc : s.pc + 1 < 4096 := by
      by_contra hpc
      simp only [Cycle, hpc, if_false] at h
      exact absurd h (by simp)
    have hword : fetchWord s < 65536 := by
      have h1 := hmem s.pc
      have h2 := hmem (s.pc + 1)
      unfold fetchWord
      omega
    exact ⟨hpc,
      (dispatch_defined r { s with opcode := fetchWord s, pc := s.pc + 2 } hword hsp hslot).mp
        ((Cycle_result_iff_handler r s hmem hpc).mp ⟨s', h⟩)⟩
  · exact Cycle_result_of_in_bounds r s hmem hsp hslot

/-- C21 (amended) exercised in both directions: the call `2300` at `0x200`
with `sp = 0` is in bounds and its cycle completes; the return `00EE` with
`sp = 0` completes no cycle and is not in bounds. -/
theorem cycle_defined_iff_witness :
    (∃ s', Cycle 0 callState = some s') ∧ ¬InBounds (progState 0x00 0xEE) := by
  have hbyte : ∀ (m : Nat → Nat) (i v : Nat), (∀ a, m a < 256) → v < 256 →
      ∀ a, store m i v a < 256 := by
    intro m i v hm hv a
    unfold store
    split_ifs
    · exact hv
    · exact hm a
  have hzero : ∀ a, blank.memory a < 256 := fun _ => (by decide : (0 : Nat) < 256)
  have hw : fetchWord callState = 0x2300 := by decide
  have hw' : fetchWord (progState 0x00 0xEE) = 0x00EE := by decide
  refine ⟨(cycle_defined_iff 0 callState ?_ (by decide) ?_).mpr ?_, ?_⟩
  · exact hbyte _ _ _ (hbyte _ _ _ (hbyte _ _ _ (hbyte _ _ _ hzero (by decide)) (by decide))
      (by decide)) (by decide)
  · rw [hw]
    exact ⟨fun _ => by decide, fun _ => by decide⟩
  · refine ⟨by decide, ?_⟩
    rw [hw]
    exact ⟨fun h => absurd h (by decide), fun _ => by decide, fun h => absurd h (by decide),
      fun h => absurd h (by decide), fun h => absurd h (by decide)⟩
  · intro hin
    have hrun := (cycle_defined_iff 0 (progState 0x00 0xEE)
      (hbyte _ _ _ (hbyte _ _ _ hzero (by decide)) (by decide)) (by decide)
      (by rw [hw']; exact ⟨fun _ => by decide, fun h => absurd h (by decide)⟩)).mpr hin
    obtain ⟨s', h⟩ := hrun
    exact absurd h (by rw [show Cycle 0 (progState 0x00 0xEE) = none from rfl]; simp)

/-! ## Timers, for every cycle in bounds -/

/-- C15, as the claim states it, fails: the call `2ABC` is not a timer-setting
instruction, but from a state with `sp = 16` it writes `stack[16]`, outside
the sixteen-entry stack, and the cycle has no resulting state in which the
timers (both 0 before) would be 0. -/
theorem timers_tick_no_result :
    fetchWord { progState 0x2A 0xBC with sp := 16 } = 0x2ABC ∧
    ({ progState 0x2A 0xBC with sp := 16 } : Chip8).delayTimer = 0 ∧
    ({ progState 0x2A 0xBC with sp := 16 } : Chip8).soundTimer = 0 ∧
    ¬∃ s', Cycle 0 { progState 0x2A 0xBC with sp := 16 } = some s' ∧
      s'.delayTimer = 0 ∧ s'.soundTimer = 0 := by
  refine ⟨by decide, rfl, rfl, ?_⟩
  rintro ⟨s', h, _⟩
  rw [show Cycle 0 { progState 0x2A 0xBC with sp := 16 } = none from rfl] at h
  exact absurd h (by simp)

/-- C15, amended: for a state whose memory cells are bytes and whose stack
pointer is a byte, whose cycle is in bounds (`InBounds`) on an instruction
word that has a slot in its dispatch table and is neither `Fx15` nor `Fx18`,
one `Cycle` completes and leaves each of `delayTimer` and `soundTimer` at its
value before the cycle minus one if that value was nonzero, and at 0 if it
was 0. -/
theorem timers_tick_in_bounds (r : Nat) (s : Chip8)
    (hmem : ∀ a, s.memory a < 256) (hsp : s.sp < 256)
    (hslot : SlotInTable (fetchWord s)) (hin : InBounds s)
    (hnot : ¬(fetchWord s / 4096 = 0xF ∧
      (fetchWord s % 256 = 0x15 ∨ fetchWord s % 256 = 0x18))) :
    ∃ s', Cycle r s = some s' ∧
      s'.delayTimer = (if s.delayTimer ≠ 0 then s.delayTimer - 1 else 0) ∧
      s'.soundTimer = (if s.soundTimer ≠ 0 then s.soundTimer - 1 else 0) := by
  obtain ⟨s', hrun⟩ := Cycle_result_of_in_bounds r s hmem hsp hslot hin
  have h1 := hmem s.pc
  have h2 := hmem (s.pc + 1)
  refine ⟨s', hrun, timers_tick r s s' _ _ hrun rfl rfl h1 h2 ?_⟩
  intro hcon
  apply hnot
  unfold fetchWord
  omega

/-- C15 (amended) exercised on `6005` at `0x200` with `delayTimer = 3` and
`soundTimer = 0`: the cycle completes with timers 2 and 0. -/
theorem timers_tick_in_bounds_witness :
    ∃ s', Cycle 0 { progState 0x60 0x05 with delayTimer := 3 } = some s' ∧
      s'.delayTimer = 2 ∧ s'.soundTimer = 0 := by
  have hbyte : ∀ (m : Nat → Nat) (i v : Nat), (∀ a, m a < 256) → v < 256 →
      ∀ a, store m i v a < 256 := by
    intro m i v hm hv a
    unfold store
    split_ifs
    · exact hv
    · exact hm a
  have hzero : ∀ a, blank.memory a < 256 := fun _ => (by decide : (0 : Nat) < 256)
  have hw : fetchWord { progState 0x60 0x05 with delayTimer := 3 } = 0x6005 := by decide
  exact timers_tick_in_bounds 0 { progState 0x60 0x05 with delayTimer := 3 }
    (hbyte _ _ _ (hbyte _ _ _ hzero (by decide)) (by decide)) (by decide)
    (by rw [hw]; exact ⟨fun _ => by decide, fun _ => by decide⟩)
    ⟨by decide, by
      rw [hw]
      exact ⟨fun h => absurd h (by decide), fun h => absurd h (by decide),
        fun h => absurd h (by decide), fun h => absurd h (by decide),
        fun h => absurd h (by decide)⟩⟩
    (by rw [hw]; decide)

end Chip8Core
